import Mathlib

/-!
# ca-cli: `crypto nacl secretbox seal|open` and `path`

A shallow embedding of `command/crypto/nacl/secretbox.go` and `command/path/path.go`.

The two secretbox actions are straight-line Go functions that talk to the
outside world (key file, standard input, prompt, standard output) and to two
libraries (`golang.org/x/crypto/nacl/secretbox`, `encoding/base64`).  The
embedding makes every one of those interactions explicit:

* what the world answers is an input (`World`);
* what the action does is recorded as a list of `Event`s, in program order;
* the returned `error` is an `Option Error`.

The secretbox primitive is a parameter (`Secretbox`); what a property needs of
it is a named contract (`OpensSealed`, `Authentic`, `DetectsFlip`).  The file
also contains a reference instance (`xsalsa20poly1305`) on which the contracts
are proved where they can be and evaluated on the scenario of the spec where
they cannot.  The base64 encoding `b64Encoder` is an unpadded Go encoding over a
parameter alphabet.
-/

set_option autoImplicit false

namespace CaCli

/-! ## Bytes, Go strings, Go builtins -/

/-- One Go `byte`. -/
abbrev Byte := Fin 256

/-- A Go `[]byte` (or the fixed-size arrays `[24]byte`, `[32]byte`, whose length
is then stated separately). -/
abbrev Bytes := List Byte

/-- A Go `string`: an immutable sequence of bytes, so `[]byte(s)` is the identity. -/
abbrev GoString := List Byte

/-- The bytes of an ASCII literal. -/
def ascii (s : String) : Bytes := s.data.map (fun c => Fin.ofNat c.toNat)

/-- The zero value of a Go byte array of length `n` (`var n [24]byte`). -/
def zeroArray (n : Nat) : Bytes := List.replicate n 0

/-- Go builtin `copy(dst, src)`: overwrites the first `min(len(dst), len(src))`
bytes of `dst` with those of `src`; the result is the new content of `dst`. -/
def copy (dst src : Bytes) : Bytes := src.take dst.length ++ dst.drop src.length

/-! ## Errors -/

/-- The underlying error of a wrapped error: whatever the operating system or a
reader reported, or `base64.CorruptInputError`. -/
inductive Cause where
  | os (detail : String)
  | corruptInput
  deriving DecidableEq, Repr

/-- The `error` values the three actions can return, by the call that builds them. -/
inductive Error where
  /-- The non-nil result of `errs.NumberOfArguments(ctx, required)`. -/
  | numberOfArguments (got required : Nat)
  /-- Built by `errors.New(msg)`. -/
  | new (msg : String)
  /-- Built by `errors.Wrap(err, msg)`. -/
  | wrap (cause : Cause) (msg : String)
  /-- Built by `errs.FileError(err, filename)`. -/
  | fileError (cause : Cause) (filename : GoString)
  deriving DecidableEq, Repr

/-! ## The command context and the world -/

/-- What the actions read from `*cli.Context`: `ctx.Args()` and `ctx.Bool("raw")`. -/
structure Context where
  args : List GoString
  raw : Bool

/-- What the outside world answers during one invocation. -/
structure World where
  /-- Result of `ioutil.ReadFile(path)`: the content of the file, or an error. -/
  readFile : GoString → Except Cause Bytes
  /-- Modelled from the spec: `utils.ReadAll` (package `utils` is not among the
  sources), called on `os.Stdin`.  "Reads ciphertext from stdin": every byte of
  standard input, unchanged, or a read error. -/
  readAll : Except Cause Bytes
  /-- Modelled from the spec: `utils.ReadInput` (package `utils` is not among the
  sources).  "Reads plaintext from an interactive prompt (or piped stdin)": the
  bytes entered, or a read error; the prompt is shown on the terminal and is no
  part of standard output. -/
  readInput : String → Except Cause Bytes

/-- One observable step of an action. -/
inductive Event where
  | readFile (path : GoString)
  | readAll
  | readInput (prompt : String)
  /-- Call `secretbox.Seal(nil, message, &n, &k)`. -/
  | sealCall (message n k : Bytes)
  /-- Call `secretbox.Open(nil, box, &n, &k)`. -/
  | openCall (box n k : Bytes)
  /-- One write to `os.Stdout`. -/
  | stdoutWrite (p : Bytes)
  deriving DecidableEq, Repr

/-- The result of running an action: the returned error (`none` is Go `nil`)
and everything it did, in order. -/
structure Outcome where
  err : Option Error
  trace : List Event

/-- The bytes written to standard output along a trace. -/
def stdoutOf : List Event → Bytes
  | [] => []
  | Event.stdoutWrite p :: es => p ++ stdoutOf es
  | _ :: es => stdoutOf es

/-- Standard output of an outcome. -/
def Outcome.stdout (o : Outcome) : Bytes := stdoutOf o.trace

/-- Library call `fmt.Println(s)` for a string `s`: one write of `s` and a newline. -/
def fmtPrintln (s : GoString) : Event := Event.stdoutWrite (s ++ [10])

/-! ## Helpers of the repository that live outside `command/` -/

/-- Modelled from the spec: `errs.NumberOfArguments` (package `errs` is not
among the sources).  "Exactly 2 positional arguments required, else fails with
an argument-count error": nil when the context has exactly `required`
positional arguments, an argument-count error otherwise. -/
def errs.NumberOfArguments (ctx : Context) (required : Nat) : Option Error :=
  if ctx.args.length = required then none
  else some (Error.numberOfArguments ctx.args.length required)

/-- Modelled from the spec: `errs.FileError` (package `errs` is not among the
sources).  "Key file unreadable fails with a file error including the path":
the error keeps the cause and the file name it is given. -/
def errs.FileError (err : Cause) (filename : GoString) : Error :=
  Error.fileError err filename

/-! ## The secretbox primitive (`golang.org/x/crypto/nacl/secretbox`) -/

/-- The two functions of the external secretbox package, as the actions call
them (`out = nil`): `Seal` returns the box; `Open` returns the message and
`true`, or `false`, here `none`. -/
structure Secretbox where
  Seal : (message n k : Bytes) → Bytes
  Open : (box n k : Bytes) → Option Bytes

/-- The contract of the primitive that the round trip rests on: a box opens
under the nonce and key it was sealed with. -/
def Secretbox.OpensSealed (sb : Secretbox) : Prop :=
  ∀ message n k : Bytes, n.length = 24 → k.length = 32 →
    sb.Open (sb.Seal message n k) n k = some message

/-- XOR of two bytes. -/
def xorByte (a b : Byte) : Byte := Fin.ofNat (Nat.xor a.val b.val)

/-- Rotate a 32-bit word left by `c` bits. -/
def rotl32 (x c : Nat) : Nat := (x * 2 ^ c + x / 2 ^ (32 - c)) % 4294967296

/-- The little-endian 32-bit word at offset `i` of a byte string. -/
def le32 (b : Bytes) (i : Nat) : Nat :=
  (b.getD i 0).val + (b.getD (i + 1) 0).val * 256 + (b.getD (i + 2) 0).val * 65536
    + (b.getD (i + 3) 0).val * 16777216

/-- The `len` little-endian bytes of a number. -/
def leBytes (len v : Nat) : Bytes := (List.range len).map (fun i => Fin.ofNat (v / 256 ^ i))

/-- The little-endian number a byte string spells. -/
def leNat : Bytes → Nat
  | [] => 0
  | b :: bs => b.val + 256 * leNat bs

/-- One Salsa20 quarter round on the words at positions `a b c d`. -/
def quarterRound (x : List Nat) (a b c d : Nat) : List Nat :=
  let x1 := x.set b (Nat.xor (x.getD b 0) (rotl32 ((x.getD a 0 + x.getD d 0) % 4294967296) 7))
  let x2 := x1.set c (Nat.xor (x1.getD c 0) (rotl32 ((x1.getD b 0 + x1.getD a 0) % 4294967296) 9))
  let x3 := x2.set d (Nat.xor (x2.getD d 0) (rotl32 ((x2.getD c 0 + x2.getD b 0) % 4294967296) 13))
  x3.set a (Nat.xor (x3.getD a 0) (rotl32 ((x3.getD d 0 + x3.getD c 0) % 4294967296) 18))

/-- A column round followed by a row round. -/
def doubleRound (x : List Nat) : List Nat :=
  let x := quarterRound x 0 4 8 12
  let x := quarterRound x 5 9 13 1
  let x := quarterRound x 10 14 2 6
  let x := quarterRound x 15 3 7 11
  let x := quarterRound x 0 1 2 3
  let x := quarterRound x 5 6 7 4
  let x := quarterRound x 10 11 8 9
  quarterRound x 15 12 13 14

/-- The constant `salsa.Sigma`. -/
def Sigma : Bytes := ascii "expand 32-byte k"

/-- The 16 input words of the Salsa20 core for a 16-byte input `inp`, a 32-byte
key `k` and the 16-byte constant `c`. -/
def salsaInput (inp k c : Bytes) : List Nat :=
  [le32 c 0, le32 k 0, le32 k 4, le32 k 8, le32 k 12, le32 c 4,
   le32 inp 0, le32 inp 4, le32 inp 8, le32 inp 12, le32 c 8,
   le32 k 16, le32 k 20, le32 k 24, le32 k 28, le32 c 12]

/-- Twenty rounds. -/
def salsaRounds (x : List Nat) : List Nat := Nat.iterate doubleRound 10 x

/-- The Salsa20 core: the 64-byte block of a 16-byte input. -/
def salsaCore (inp k c : Bytes) : Bytes :=
  (List.zipWith (fun a b => (a + b) % 4294967296) (salsaRounds (salsaInput inp k c))
    (salsaInput inp k c)).flatMap (leBytes 4)

/-- The function `salsa.HSalsa20`: the 32-byte subkey. -/
def HSalsa20 (inp k c : Bytes) : Bytes :=
  ([0, 5, 10, 15, 6, 7, 8, 9].map
    (fun i => (salsaRounds (salsaInput inp k c)).getD i 0)).flatMap (leBytes 4)

/-- The loop of `salsa.XORKeyStream`: XOR the next (at most) 64 bytes with the
block of the current counter, then add one to the 64-bit little-endian block
number in bytes 8..15 of the counter.  `fuel` bounds the number of blocks. -/
def xorKeyStreamLoop (key : Bytes) : (fuel : Nat) → (inp counter : Bytes) → Bytes
  | 0, _, _ => []
  | fuel + 1, inp, counter =>
    if inp = [] then []
    else List.zipWith xorByte (inp.take 64) (salsaCore counter key Sigma)
      ++ xorKeyStreamLoop key fuel (inp.drop 64)
        (counter.take 8 ++ leBytes 8 ((leNat (counter.drop 8) + 1) % 2 ^ 64))

/-- The function `salsa.XORKeyStream(out, in, counter, key)`: the new `out`. -/
def XORKeyStream (inp counter key : Bytes) : Bytes :=
  xorKeyStreamLoop key inp.length inp counter

/-- The Poly1305 accumulator after the 16-byte blocks of `m` (the last one may
be shorter); `fuel` bounds the number of blocks. -/
def polyBlocks (r : Nat) : (fuel : Nat) → Bytes → Nat → Nat
  | 0, _, h => h
  | fuel + 1, m, h =>
    if m = [] then h
    else polyBlocks r fuel (m.drop 16)
      ((h + leNat (m.take 16) + 256 ^ (m.take 16).length) * r % (2 ^ 130 - 5))

/-- The function `poly1305.Sum`: the 16-byte tag of `m` under a 32-byte one-time key. -/
def poly1305Sum (m key : Bytes) : Bytes :=
  leBytes 16 ((polyBlocks (Nat.land (leNat (key.take 16)) 0x0ffffffc0ffffffc0ffffffc0fffffff)
    m.length m 0 + leNat ((key.drop 16).take 16)) % 2 ^ 128)

/-- The function `setup` of package `secretbox`: the HSalsa20 subkey of the
first 16 nonce bytes, and the counter made of the last 8 nonce bytes. -/
def setup (nonce key : Bytes) : Bytes × Bytes :=
  (HSalsa20 (copy (zeroArray 16) nonce) key Sigma, copy (zeroArray 16) (nonce.drop 16))

/-- The first key-stream block (`firstBlock` in `Seal` and `Open`): its first 32
bytes are the Poly1305 key, its last 32 encrypt the start of the message. -/
def firstBlock (nonce key : Bytes) : Bytes :=
  XORKeyStream (zeroArray 64) (setup nonce key).2 (setup nonce key).1

/-- The encryption (and decryption) of `secretbox`: the first 32 bytes are
XORed with the second half of the first block, the rest with the key stream
from block 1 on (`counter[8] = 1`). -/
def cryptBody (message nonce key : Bytes) : Bytes :=
  List.zipWith xorByte ((firstBlock nonce key).drop 32) (message.take 32)
    ++ XORKeyStream (message.drop (message.take 32).length) ((setup nonce key).2.set 8 1)
        (setup nonce key).1

/-- The function `secretbox.Seal(nil, message, &nonce, &key)`. -/
def sealBox (message nonce key : Bytes) : Bytes :=
  poly1305Sum (cryptBody message nonce key) (copy (zeroArray 32) (firstBlock nonce key))
    ++ cryptBody message nonce key

/-- The function `secretbox.Open(nil, box, &nonce, &key)`. -/
def openBox (box nonce key : Bytes) : Option Bytes :=
  if box.length < 16 then none
  else if poly1305Sum (box.drop 16) (copy (zeroArray 32) (firstBlock nonce key))
      ≠ copy (zeroArray 16) box then none
  else some (cryptBody (box.drop 16) nonce key)

/-- The reference instance of the primitive. -/
def xsalsa20poly1305 : Secretbox := ⟨sealBox, openBox⟩

/-! ## `b64Encoder` (`encoding/base64`) -/

/-- Modelled from the spec: `b64Encoder`, a package variable declared in a
file of package `nacl` that is not among the sources.  The spec calls it
"base64 text"; the sealed example of the help text
(`o2NJTsIJsk0dl4epiBwS1mM4xFED7iE`, 31 characters for 23 bytes) shows that it
is an unpadded `encoding/base64` encoding.  The alphabet is left open: `encode`
is the 64-symbol table of the Go `Encoding`. -/
structure Encoding where
  encode : Bytes

/-- What `base64.NewEncoding` demands of an alphabet: 64 distinct symbols,
none of them a line break. -/
def Encoding.WellFormed (enc : Encoding) : Prop :=
  enc.encode.length = 64 ∧ enc.encode.Nodup ∧ (10 : Byte) ∉ enc.encode ∧ (13 : Byte) ∉ enc.encode

instance (enc : Encoding) : Decidable enc.WellFormed := by
  unfold Encoding.WellFormed; infer_instance

/-- The alphabet of `base64.RawStdEncoding`. -/
def rawStdEncoding : Encoding :=
  ⟨ascii "ABCDEFGHIJKLMNOPQRSTUVWXYZabcdefghijklmnopqrstuvwxyz0123456789+/"⟩

/-- The alphabet of `base64.RawURLEncoding`. -/
def rawURLEncoding : Encoding :=
  ⟨ascii "ABCDEFGHIJKLMNOPQRSTUVWXYZabcdefghijklmnopqrstuvwxyz0123456789-_"⟩

/-- The table lookup `enc.encode[v]`. -/
def Encoding.symbol (enc : Encoding) (v : Nat) : Byte := enc.encode.getD v 0

/-- The lookup `enc.decodeMap[c]`: the 6-bit value of a symbol, `none` for the
`0xFF` entry of a byte outside the alphabet. -/
def Encoding.decodeMap (enc : Encoding) (c : Byte) : Option Nat :=
  if enc.encode.indexOf c < 64 then some (enc.encode.indexOf c) else none

/-- The 6-bit values `Encode` emits: each full group of three bytes gives four
(`val = b0<<16 | b1<<8 | b2`, then `val>>18&0x3F`, `val>>12&0x3F`, `val>>6&0x3F`,
`val&0x3F`); a remainder of two bytes gives three and of one byte gives two, no
padding being written. -/
def sextets : Bytes → List Nat
  | [] => []
  | [a] =>
    let val := a.val * 65536
    [val / 262144 % 64, val / 4096 % 64]
  | [a, b] =>
    let val := a.val * 65536 + b.val * 256
    [val / 262144 % 64, val / 4096 % 64, val / 64 % 64]
  | a :: b :: c :: rest =>
    let val := a.val * 65536 + b.val * 256 + c.val
    val / 262144 % 64 :: val / 4096 % 64 :: val / 64 % 64 :: val % 64 :: sextets rest

/-- Method `enc.EncodeToString(src)`. -/
def Encoding.EncodeToString (enc : Encoding) (src : Bytes) : GoString :=
  (sextets src).map enc.symbol

/-- Method `enc.DecodedLen(n)` of an unpadded encoding: `n * 6 / 8`. -/
def Encoding.DecodedLen (_enc : Encoding) (n : Nat) : Nat := n * 6 / 8

/-- The bytes one quantum of `dlen` 6-bit values decodes to
(`val = d0<<18 | d1<<12 | d2<<6 | d3`, then `val>>16`, `val>>8`, `val`, of which
`dlen - 1` are kept).  Decoding is not strict: the unused low bits of a short
last quantum are not looked at. -/
def quantum (dbuf : List Nat) : Bytes :=
  let val := dbuf.getD 0 0 * 262144 + dbuf.getD 1 0 * 4096 + dbuf.getD 2 0 * 64 + dbuf.getD 3 0
  ([Fin.ofNat (val / 65536), Fin.ofNat (val / 256), Fin.ofNat val] : Bytes).take (dbuf.length - 1)

/-- The decoding loop of `Decode` for an unpadded encoding: `dbuf` holds the
values of the quantum being read, `out` the bytes decoded so far.  A byte of
the alphabet joins the quantum; a line break is skipped; any other byte is a
`CorruptInputError`.  At the end of the input a quantum of one value is a
`CorruptInputError`, one of two or three values gives one or two bytes. -/
def Encoding.decodeLoop (enc : Encoding) : (src : Bytes) → (dbuf : List Nat) → (out : Bytes) →
    Except Cause Bytes
  | [], dbuf, out =>
    if dbuf.length = 0 then Except.ok out
    else if dbuf.length = 1 then Except.error Cause.corruptInput
    else Except.ok (out ++ quantum dbuf)
  | c :: rest, dbuf, out =>
    match enc.decodeMap c with
    | some v =>
      if dbuf.length + 1 = 4 then enc.decodeLoop rest [] (out ++ quantum (dbuf ++ [v]))
      else enc.decodeLoop rest (dbuf ++ [v]) out
    | none =>
      if c = 10 ∨ c = 13 then enc.decodeLoop rest dbuf out
      else Except.error Cause.corruptInput

/-- Method `enc.Decode(dst, src)`: on success the new content of `dst` and the
number `n` of bytes written to it.  (On failure Go also reports how many bytes
it had written; the caller drops that, and so does the model.) -/
def Encoding.Decode (enc : Encoding) (dst src : Bytes) : Except Cause (Bytes × Nat) :=
  match enc.decodeLoop src [] [] with
  | Except.error e => Except.error e
  | Except.ok decoded => Except.ok (copy dst decoded, decoded.length)

/-! ## `command/crypto/nacl/secretbox.go` -/

/-- Function `secretboxOpenAction`. -/
def secretboxOpenAction (sb : Secretbox) (b64Encoder : Encoding) (w : World) (ctx : Context) :
    Outcome :=
  match errs.NumberOfArguments ctx 2 with
  | some err => ⟨some err, []⟩
  | none =>
    let nonce := ctx.args.getD 0 []
    let keyFile := ctx.args.getD 1 []
    if nonce.length > 24 then
      ⟨some (Error.new "nonce cannot be longer than 24 bytes"), []⟩
    else
      match w.readFile keyFile with
      | Except.error err => ⟨some (errs.FileError err keyFile), [Event.readFile keyFile]⟩
      | Except.ok key =>
        if key.length ≠ 32 then
          ⟨some (Error.new "invalid key file: key size is not 32 bytes"), [Event.readFile keyFile]⟩
        else
          match w.readAll with
          | Except.error err =>
            ⟨some (Error.wrap err "error reading input"), [Event.readFile keyFile, Event.readAll]⟩
          | Except.ok input =>
            let decoded : Except Cause Bytes :=
              if ctx.raw then Except.ok input
              else
                match b64Encoder.Decode (zeroArray (b64Encoder.DecodedLen input.length)) input with
                | Except.error err => Except.error err
                | Except.ok (rawInput, n) => Except.ok (rawInput.take n)
            match decoded with
            | Except.error err =>
              ⟨some (Error.wrap err "error decoding base64 input"),
                [Event.readFile keyFile, Event.readAll]⟩
            | Except.ok rawInput =>
              let n := copy (zeroArray 24) nonce
              let k := copy (zeroArray 32) key
              match sb.Open rawInput n k with
              | none =>
                ⟨some (Error.new "error authenticating or decrypting input"),
                  [Event.readFile keyFile, Event.readAll, Event.openCall rawInput n k]⟩
              | some raw =>
                ⟨none, [Event.readFile keyFile, Event.readAll, Event.openCall rawInput n k,
                  Event.stdoutWrite raw]⟩

/-- Function `secretboxSealAction`. -/
def secretboxSealAction (sb : Secretbox) (b64Encoder : Encoding) (w : World) (ctx : Context) :
    Outcome :=
  match errs.NumberOfArguments ctx 2 with
  | some err => ⟨some err, []⟩
  | none =>
    let nonce := ctx.args.getD 0 []
    let keyFile := ctx.args.getD 1 []
    if nonce.length > 24 then
      ⟨some (Error.new "nonce cannot be longer than 24 bytes"), []⟩
    else
      match w.readFile keyFile with
      | Except.error err => ⟨some (errs.FileError err keyFile), [Event.readFile keyFile]⟩
      | Except.ok key =>
        if key.length ≠ 32 then
          ⟨some (Error.new "invalid key: key size is not 32 bytes"), [Event.readFile keyFile]⟩
        else
          match w.readInput "Please enter text to seal" with
          | Except.error err =>
            ⟨some (Error.wrap err "error reading input"),
              [Event.readFile keyFile, Event.readInput "Please enter text to seal"]⟩
          | Except.ok input =>
            let n := copy (zeroArray 24) nonce
            let k := copy (zeroArray 32) key
            let raw := sb.Seal input n k
            ⟨none, [Event.readFile keyFile, Event.readInput "Please enter text to seal",
              Event.sealCall input n k,
              if ctx.raw then Event.stdoutWrite raw
              else fmtPrintln (b64Encoder.EncodeToString raw)]⟩

/-! ## `command/path/path.go` -/

/-- The `Action` of the `path` command registered by `init`; `StepPath` is the
value `config.StepPath()` returns. -/
def pathAction (StepPath : GoString) (_ctx : Context) : Outcome :=
  ⟨none, [fmtPrintln StepPath]⟩

/-! ## Vocabulary of the properties -/

/-- The error kinds of the spec (section 7). -/
inductive ErrorKind where
  | argumentCount
  | nonceLength
  | fileRead
  | keyLength
  | inputRead
  | encoding
  | authentication
  deriving DecidableEq, Repr

/-- The kind of an error value, read off the call that built it and its message;
`none` for a value neither action builds. -/
def Error.kind : Error → Option ErrorKind
  | Error.numberOfArguments _ _ => some ErrorKind.argumentCount
  | Error.fileError _ _ => some ErrorKind.fileRead
  | Error.new msg =>
    if msg = "nonce cannot be longer than 24 bytes" then some ErrorKind.nonceLength
    else if msg = "invalid key: key size is not 32 bytes" then some ErrorKind.keyLength
    else if msg = "invalid key file: key size is not 32 bytes" then some ErrorKind.keyLength
    else if msg = "error authenticating or decrypting input" then some ErrorKind.authentication
    else none
  | Error.wrap _ msg =>
    if msg = "error reading input" then some ErrorKind.inputRead
    else if msg = "error decoding base64 input" then some ErrorKind.encoding
    else none

/-- The kind of the error an invocation returned, `none` when it returned nil. -/
def Outcome.errKind (o : Outcome) : Option ErrorKind := o.err.bind Error.kind

/-- The four validation kinds: argument count, nonce length, key file, key length. -/
def ErrorKind.isValidation : ErrorKind → Bool
  | ErrorKind.argumentCount => true
  | ErrorKind.nonceLength => true
  | ErrorKind.fileRead => true
  | ErrorKind.keyLength => true
  | _ => false

/-- The validation error of an invocation: the kind of its error when that is
one of the four validation kinds. -/
def Outcome.validationError (o : Outcome) : Option ErrorKind :=
  o.errKind.filter ErrorKind.isValidation

/-- The byte string `bs` with bit `i` flipped (bit `i % 8` of byte `i / 8`);
unchanged when `bs` has no such byte. -/
def flipBit (bs : Bytes) (i : Nat) : Bytes :=
  bs.set (i / 8) (xorByte (bs.getD (i / 8) 0) (Fin.ofNat (2 ^ (i % 8))))

/-- A 32-byte key (the key of the NaCl secretbox test vector). -/
def exampleKey : Bytes :=
  [0x1b, 0x27, 0x55, 0x64, 0x73, 0xe9, 0x85, 0xd4, 0x62, 0xcd, 0x51, 0x19, 0x7a, 0x9a, 0x46, 0xc7,
   0x60, 0x09, 0x54, 0x9e, 0xac, 0x64, 0x74, 0xf2, 0x06, 0xc4, 0xee, 0x08, 0x44, 0xf6, 0x83, 0x89]

/-- Another 32-byte key: `exampleKey` with its first byte changed. -/
def otherKey : Bytes := exampleKey.set 0 0x1c

/-- A file system with one file per listed pair; any other path does not exist. -/
def fileSystem (files : List (GoString × Bytes)) (path : GoString) : Except Cause Bytes :=
  match files.lookup path with
  | some content => Except.ok content
  | none => Except.error (Cause.os "no such file or directory")

/-- A world with the given files, bytes on standard input, and answer to the prompt. -/
def exampleWorld (files : List (GoString × Bytes)) (stdin input : Bytes) : World :=
  ⟨fileSystem files, Except.ok stdin, fun _ => Except.ok input⟩

/-- A world in which `secretbox.key` holds `exampleKey`. -/
def keyWorld (stdin input : Bytes) : World :=
  exampleWorld [(ascii "secretbox.key", exampleKey)] stdin input

/-- The arguments `<nonce> secretbox.key`, with or without `--raw`. -/
def exampleContext (nonce : GoString) (raw : Bool) : Context :=
  ⟨[nonce, ascii "secretbox.key"], raw⟩

/-- The nonce of the NaCl secretbox test vector. -/
def naclNonce : Bytes :=
  [0x69, 0x69, 0x6e, 0xe9, 0x55, 0xb6, 0x2b, 0x73, 0xcd, 0x62, 0xbd, 0xa8, 0x75, 0xfc, 0x73, 0xd6,
   0x82, 0x19, 0xe0, 0x03, 0x6b, 0x7a, 0x0b, 0x37]

/-- The message of the NaCl secretbox test vector (131 bytes). -/
def naclMessage : Bytes :=
  [0xbe, 0x07, 0x5f, 0xc5, 0x3c, 0x81, 0xf2, 0xd5, 0xcf, 0x14, 0x13, 0x16, 0xeb, 0xeb, 0x0c, 0x7b,
   0x52, 0x28, 0xc5, 0x2a, 0x4c, 0x62, 0xcb, 0xd4, 0x4b, 0x66, 0x84, 0x9b, 0x64, 0x24, 0x4f, 0xfc,
   0xe5, 0xec, 0xba, 0xaf, 0x33, 0xbd, 0x75, 0x1a, 0x1a, 0xc7, 0x28, 0xd4, 0x5e, 0x6c, 0x61, 0x29,
   0x6c, 0xdc, 0x3c, 0x01, 0x23, 0x35, 0x61, 0xf4, 0x1d, 0xb6, 0x6c, 0xce, 0x31, 0x4a, 0xdb, 0x31,
   0x0e, 0x3b, 0xe8, 0x25, 0x0c, 0x46, 0xf0, 0x6d, 0xce, 0xea, 0x3a, 0x7f, 0xa1, 0x34, 0x80, 0x57,
   0xe2, 0xf6, 0x55, 0x6a, 0xd6, 0xb1, 0x31, 0x8a, 0x02, 0x4a, 0x83, 0x8f, 0x21, 0xaf, 0x1f, 0xde,
   0x04, 0x89, 0x77, 0xeb, 0x48, 0xf5, 0x9f, 0xfd, 0x49, 0x24, 0xca, 0x1c, 0x60, 0x90, 0x2e, 0x52,
   0xf0, 0xa0, 0x89, 0xbc, 0x76, 0x89, 0x70, 0x40, 0xe0, 0x82, 0xf9, 0x37, 0x76, 0x38, 0x48, 0x64,
   0x5e, 0x07, 0x05]

/-- The box of the NaCl secretbox test vector (147 bytes). -/
def naclBox : Bytes :=
  [0xf3, 0xff, 0xc7, 0x70, 0x3f, 0x94, 0x00, 0xe5, 0x2a, 0x7d, 0xfb, 0x4b, 0x3d, 0x33, 0x05, 0xd9,
   0x8e, 0x99, 0x3b, 0x9f, 0x48, 0x68, 0x12, 0x73, 0xc2, 0x96, 0x50, 0xba, 0x32, 0xfc, 0x76, 0xce,
   0x48, 0x33, 0x2e, 0xa7, 0x16, 0x4d, 0x96, 0xa4, 0x47, 0x6f, 0xb8, 0xc5, 0x31, 0xa1, 0x18, 0x6a,
   0xc0, 0xdf, 0xc1, 0x7c, 0x98, 0xdc, 0xe8, 0x7b, 0x4d, 0xa7, 0xf0, 0x11, 0xec, 0x48, 0xc9, 0x72,
   0x71, 0xd2, 0xc2, 0x0f, 0x9b, 0x92, 0x8f, 0xe2, 0x27, 0x0d, 0x6f, 0xb8, 0x63, 0xd5, 0x17, 0x38,
   0xb4, 0x8e, 0xee, 0xe3, 0x14, 0xa7, 0xcc, 0x8a, 0xb9, 0x32, 0x16, 0x45, 0x48, 0xe5, 0x26, 0xae,
   0x90, 0x22, 0x43, 0x68, 0x51, 0x7a, 0xcf, 0xea, 0xbd, 0x6b, 0xb3, 0x73, 0x2b, 0xc0, 0xe9, 0xda,
   0x99, 0x83, 0x2b, 0x61, 0xca, 0x01, 0xb6, 0xde, 0x56, 0x24, 0x4a, 0x9e, 0x88, 0xd5, 0xf9, 0xb3,
   0x79, 0x73, 0xf6, 0x22, 0xa4, 0x3d, 0x14, 0xa6, 0x59, 0x9b, 0x1f, 0x65, 0x4c, 0xb4, 0x5a, 0x74,
   0xe3, 0x55, 0xa5]

/-! ## Lemmas: Go builtins -/

theorem copy_length (dst src : Bytes) : (copy dst src).length = dst.length := by
  simp only [copy, List.length_append, List.length_take, List.length_drop]
  omega

theorem copy_of_length_eq (dst src : Bytes) (h : src.length = dst.length) : copy dst src = src := by
  simp [copy, h]

theorem copy_zeroArray_take (n : Nat) (src : Bytes) (h : src.length ≤ n) :
    copy (zeroArray n) src = src ++ zeroArray (n - src.length) := by
  simp [copy, zeroArray, List.take_of_length_le h]

theorem byte_ofNat_eq (x : Nat) (a : Byte) (h : x % 256 = a.val) : (Fin.ofNat x : Byte) = a := by
  apply Fin.ext
  simpa [Fin.ofNat] using h

/-! ## Lemmas: base64 -/

theorem Encoding.decodeMap_symbol (enc : Encoding) (h : enc.WellFormed) (v : Nat) (hv : v < 64) :
    enc.decodeMap (enc.symbol v) = some v := by
  obtain ⟨hlen, hnd, -, -⟩ := h
  have hv' : v < enc.encode.length := by omega
  have hs : enc.symbol v = enc.encode[v] := by
    simp [Encoding.symbol, List.getD_eq_getElem?_getD, List.getElem?_eq_getElem hv']
  have hi : enc.encode.indexOf (enc.symbol v) = v := by
    rw [hs]; exact List.indexOf_getElem hnd v hv'
  simp [Encoding.decodeMap, hi, hv]

theorem Encoding.decodeMap_newline (enc : Encoding) (h : enc.WellFormed) :
    enc.decodeMap 10 = none := by
  obtain ⟨hlen, -, h10, -⟩ := h
  have : enc.encode.indexOf (10 : Byte) = enc.encode.length := List.indexOf_eq_length.mpr h10
  simp [Encoding.decodeMap, this, hlen]

theorem Encoding.decodeLoop_encoded (enc : Encoding) (h : enc.WellFormed) (src out : Bytes) :
    enc.decodeLoop (enc.EncodeToString src ++ [10]) [] out = Except.ok (out ++ src) := by
  induction src using sextets.induct generalizing out with
  | case1 =>
    simp [Encoding.EncodeToString, sextets, Encoding.decodeLoop, enc.decodeMap_newline h]
  | case2 a =>
    have ha := a.isLt
    simp only [Encoding.EncodeToString, sextets, List.map_cons, List.map_nil, List.cons_append,
      List.nil_append, Encoding.decodeLoop]
    rw [enc.decodeMap_symbol h _ (Nat.mod_lt _ (by norm_num))]
    simp only [List.length_nil, Nat.zero_add, Nat.reduceEqDiff, if_false, List.nil_append]
    rw [enc.decodeMap_symbol h _ (Nat.mod_lt _ (by norm_num))]
    simp only [List.length_cons, List.length_nil, Nat.zero_add, Nat.reduceAdd, Nat.reduceEqDiff,
      if_false, List.cons_append, List.nil_append, enc.decodeMap_newline h, Encoding.decodeLoop]
    simp only [quantum, List.getD_cons_zero, List.getD_cons_succ, List.getD_nil, List.length_cons,
      List.length_nil]
    simp
    apply byte_ofNat_eq
    omega
  | case3 a b =>
    have ha := a.isLt
    have hb := b.isLt
    simp only [Encoding.EncodeToString, sextets, List.map_cons, List.map_nil, List.cons_append,
      List.nil_append, Encoding.decodeLoop]
    rw [enc.decodeMap_symbol h _ (Nat.mod_lt _ (by norm_num))]
    simp only [List.length_nil, Nat.zero_add, Nat.reduceEqDiff, if_false, List.nil_append]
    rw [enc.decodeMap_symbol h _ (Nat.mod_lt _ (by norm_num))]
    simp only [List.length_cons, List.length_nil, Nat.zero_add, Nat.reduceAdd, Nat.reduceEqDiff,
      if_false, List.cons_append, List.nil_append]
    rw [enc.decodeMap_symbol h _ (Nat.mod_lt _ (by norm_num))]
    simp only [List.length_cons, List.length_nil, Nat.zero_add, Nat.reduceAdd, Nat.reduceEqDiff,
      if_false, List.cons_append, List.nil_append, enc.decodeMap_newline h, Encoding.decodeLoop]
    simp only [quantum, List.getD_cons_zero, List.getD_cons_succ, List.getD_nil, List.length_cons,
      List.length_nil]
    simp
    constructor <;> apply byte_ofNat_eq <;> omega
  | case4 a b c rest ih =>
    have ha := a.isLt
    have hb := b.isLt
    have hc := c.isLt
    simp only [Encoding.EncodeToString, sextets, List.map_cons, List.cons_append,
      Encoding.decodeLoop]
    rw [enc.decodeMap_symbol h _ (Nat.mod_lt _ (by norm_num))]
    simp only [List.length_nil, Nat.zero_add, Nat.reduceEqDiff, if_false, List.nil_append]
    rw [enc.decodeMap_symbol h _ (Nat.mod_lt _ (by norm_num))]
    simp only [List.length_cons, List.length_nil, Nat.zero_add, Nat.reduceAdd, Nat.reduceEqDiff,
      if_false, List.cons_append, List.nil_append]
    rw [enc.decodeMap_symbol h _ (Nat.mod_lt _ (by norm_num))]
    simp only [List.length_cons, List.length_nil, Nat.zero_add, Nat.reduceAdd, Nat.reduceEqDiff,
      if_false, List.cons_append, List.nil_append]
    rw [enc.decodeMap_symbol h _ (Nat.mod_lt _ (by norm_num))]
    simp only [List.length_cons, List.length_nil, Nat.zero_add, Nat.reduceAdd, if_true]
    have ih' := ih (out ++ quantum
      [(a.val * 65536 + b.val * 256 + c.val) / 262144 % 64,
       (a.val * 65536 + b.val * 256 + c.val) / 4096 % 64,
       (a.val * 65536 + b.val * 256 + c.val) / 64 % 64,
       (a.val * 65536 + b.val * 256 + c.val) % 64])
    simp only [Encoding.EncodeToString] at ih'
    simp only [List.append_eq]
    rw [ih']
    have hq : quantum
      [(a.val * 65536 + b.val * 256 + c.val) / 262144 % 64,
       (a.val * 65536 + b.val * 256 + c.val) / 4096 % 64,
       (a.val * 65536 + b.val * 256 + c.val) / 64 % 64,
       (a.val * 65536 + b.val * 256 + c.val) % 64] = [a, b, c] := by
      simp only [quantum, List.getD_cons_zero, List.getD_cons_succ, List.getD_nil,
        List.length_cons, List.length_nil]
      simp
      refine ⟨?_, ?_, ?_⟩ <;> apply byte_ofNat_eq <;> omega
    rw [hq]
    simp

theorem Encoding.quantum_length (dbuf : List Nat) (h : dbuf.length ≤ 4) :
    (quantum dbuf).length = dbuf.length - 1 := by
  simp only [quantum, List.length_take, List.length_cons, List.length_nil]
  omega

theorem Encoding.decodeLoop_length (enc : Encoding) (src : Bytes) :
    ∀ (dbuf : List Nat) (out r : Bytes), dbuf.length ≤ 3 →
      enc.decodeLoop src dbuf out = Except.ok r →
      r.length ≤ out.length + (dbuf.length + src.length) * 6 / 8 := by
  induction src with
  | nil =>
    intro dbuf out r hd hr
    simp only [Encoding.decodeLoop] at hr
    split at hr
    · cases hr; omega
    · split at hr
      · cases hr
      · cases hr
        rw [List.length_append, Encoding.quantum_length dbuf (by omega)]
        simp only [List.length_nil]
        omega
  | cons c rest ih =>
    intro dbuf out r hd hr
    simp only [Encoding.decodeLoop] at hr
    split at hr
    · split at hr
      · have := ih [] _ r (by simp) hr
        rw [List.length_append, Encoding.quantum_length _ (by simp; omega)] at this
        simp only [List.length_append, List.length_cons, List.length_nil] at this ⊢
        omega
      · have := ih _ out r (by simp; omega) hr
        simp only [List.length_append, List.length_cons, List.length_nil] at this ⊢
        omega
    · split at hr
      · have := ih dbuf out r hd hr
        simp only [List.length_cons]
        omega
      · cases hr

/-- The slice `rawInput[:n]` that `secretboxOpenAction` takes after a successful
`Decode` into a buffer of `DecodedLen(len(input))` bytes is in range and holds
exactly the decoded bytes. -/
theorem Encoding.Decode_take (enc : Encoding) (input : Bytes) :
    (match enc.Decode (zeroArray (enc.DecodedLen input.length)) input with
      | Except.error err => (Except.error err : Except Cause Bytes)
      | Except.ok (rawInput, n) => Except.ok (rawInput.take n))
    = enc.decodeLoop input [] [] := by
  unfold Encoding.Decode
  cases hd : enc.decodeLoop input [] [] with
  | error e => rfl
  | ok d =>
    have hlen := enc.decodeLoop_length input [] [] d (by simp) hd
    simp only [List.length_nil, Nat.zero_add] at hlen
    simp only [copy, zeroArray, List.length_replicate, Encoding.DecodedLen]
    rw [List.take_of_length_le hlen, List.take_left' rfl]

/-- Open decodes what seal wrote back to the box. -/
theorem sealed_output_decodes (enc : Encoding) (henc : enc.WellFormed) (raw : Bool) (box : Bytes) :
    (if raw then Except.ok (if raw then box else enc.EncodeToString box ++ [10])
      else enc.decodeLoop (if raw then box else enc.EncodeToString box ++ [10]) [] [])
    = (Except.ok box : Except Cause Bytes) := by
  cases raw
  · simpa using enc.decodeLoop_encoded henc box []
  · simp

/-! ## Lemmas: the reference instance -/

theorem xorByte_xorByte (a b : Byte) : xorByte (xorByte a b) b = a := by
  have hlt : Nat.xor a.val b.val < 256 := Nat.xor_lt_two_pow (n := 8) a.isLt b.isLt
  apply byte_ofNat_eq
  have h1 : ((Fin.ofNat (Nat.xor a.val b.val) : Byte)).val = Nat.xor a.val b.val := by
    simp [Fin.ofNat, Nat.mod_eq_of_lt hlt]
  simp only [xorByte, h1]
  have : Nat.xor (Nat.xor a.val b.val) b.val = a.val := by
    show (a.val ^^^ b.val) ^^^ b.val = a.val
    rw [Nat.xor_assoc, Nat.xor_self, Nat.xor_zero]
  rw [this]
  exact Nat.mod_eq_of_lt a.isLt

theorem xorByte_comm (a b : Byte) : xorByte a b = xorByte b a := by
  simp only [xorByte]
  congr 1
  exact Nat.xor_comm _ _

theorem zipWith_xorByte_left (ks : Bytes) : ∀ m : Bytes, m.length ≤ ks.length →
    List.zipWith xorByte ks (List.zipWith xorByte ks m) = m := by
  induction ks with
  | nil => intro m h; cases m <;> simp_all
  | cons x ks ih =>
    intro m h
    cases m with
    | nil => simp
    | cons y m =>
      simp only [List.zipWith_cons_cons, List.cons.injEq]
      refine ⟨?_, ih m (by simpa using h)⟩
      rw [xorByte_comm x y, xorByte_comm x, xorByte_xorByte]

theorem zipWith_xorByte_right (ks : Bytes) : ∀ m : Bytes, m.length ≤ ks.length →
    List.zipWith xorByte (List.zipWith xorByte m ks) ks = m := by
  induction ks with
  | nil => intro m h; cases m <;> simp_all
  | cons x ks ih =>
    intro m h
    cases m with
    | nil => simp
    | cons y m =>
      simp only [List.zipWith_cons_cons, List.cons.injEq]
      exact ⟨xorByte_xorByte y x, ih m (by simpa using h)⟩

theorem leBytes_length (len v : Nat) : (leBytes len v).length = len := by
  simp [leBytes]

theorem flatMap_leBytes_length (l : List Nat) : (l.flatMap (leBytes 4)).length = 4 * l.length := by
  induction l with
  | nil => rfl
  | cons x l ih => simp [List.flatMap_cons, leBytes_length, ih]; omega

theorem quarterRound_length (x : List Nat) (a b c d : Nat) :
    (quarterRound x a b c d).length = x.length := by
  simp [quarterRound]

theorem doubleRound_length (x : List Nat) : (doubleRound x).length = x.length := by
  simp [doubleRound, quarterRound_length]

theorem salsaRounds_length (x : List Nat) : (salsaRounds x).length = x.length := by
  unfold salsaRounds
  generalize 10 = n
  induction n generalizing x with
  | zero => rfl
  | succ n ih => rw [Function.iterate_succ_apply, ih, doubleRound_length]

theorem salsaCore_length (inp k c : Bytes) : (salsaCore inp k c).length = 64 := by
  unfold salsaCore
  rw [flatMap_leBytes_length, List.length_zipWith, salsaRounds_length]
  simp [salsaInput]

theorem xorKeyStreamLoop_length (key : Bytes) : ∀ (fuel : Nat) (inp counter : Bytes),
    inp.length ≤ fuel → (xorKeyStreamLoop key fuel inp counter).length = inp.length := by
  intro fuel
  induction fuel with
  | zero =>
    intro inp counter h
    have : inp = [] := List.length_eq_zero.mp (by omega)
    simp [xorKeyStreamLoop, this]
  | succ fuel ih =>
    intro inp counter h
    simp only [xorKeyStreamLoop]
    split
    · next he => simp [he]
    · next hne =>
      have hpos : 0 < inp.length := List.length_pos.mpr hne
      rw [List.length_append, List.length_zipWith, salsaCore_length, List.length_take,
        ih _ _ (by simp only [List.length_drop]; omega), List.length_drop]
      omega

theorem xorKeyStreamLoop_involutive (key : Bytes) : ∀ (fuel : Nat) (inp counter : Bytes),
    inp.length ≤ fuel →
    xorKeyStreamLoop key fuel (xorKeyStreamLoop key fuel inp counter) counter = inp := by
  intro fuel
  induction fuel with
  | zero =>
    intro inp counter h
    have : inp = [] := List.length_eq_zero.mp (by omega)
    simp [xorKeyStreamLoop, this]
  | succ fuel ih =>
    intro inp counter h
    by_cases he : inp = []
    · simp [xorKeyStreamLoop, he]
    · have hpos : 0 < inp.length := List.length_pos.mpr he
      have hrest : (inp.drop 64).length ≤ fuel := by simp only [List.length_drop]; omega
      have hA : (List.zipWith xorByte (inp.take 64) (salsaCore counter key Sigma)).length
          = min 64 inp.length := by
        rw [List.length_zipWith, salsaCore_length, List.length_take]; omega
      have hout : xorKeyStreamLoop key (fuel + 1) inp counter
          = List.zipWith xorByte (inp.take 64) (salsaCore counter key Sigma)
            ++ xorKeyStreamLoop key fuel (inp.drop 64)
              (counter.take 8 ++ leBytes 8 ((leNat (counter.drop 8) + 1) % 2 ^ 64)) := by
        simp [xorKeyStreamLoop, he]
      have hB := xorKeyStreamLoop_length key fuel (inp.drop 64)
        (counter.take 8 ++ leBytes 8 ((leNat (counter.drop 8) + 1) % 2 ^ 64)) hrest
      have hne : xorKeyStreamLoop key (fuel + 1) inp counter ≠ [] := by
        intro h0
        have := congrArg List.length h0
        rw [xorKeyStreamLoop_length key _ _ _ h, List.length_nil] at this
        omega
      have htake : (xorKeyStreamLoop key (fuel + 1) inp counter).take 64
          = List.zipWith xorByte (inp.take 64) (salsaCore counter key Sigma) := by
        rw [hout]
        by_cases h64 : 64 ≤ inp.length
        · exact List.take_left' (by rw [hA]; omega)
        · have : inp.drop 64 = [] := List.drop_eq_nil_of_le (by omega)
          rw [this]
          have : xorKeyStreamLoop key fuel [] (counter.take 8 ++
              leBytes 8 ((leNat (counter.drop 8) + 1) % 2 ^ 64)) = [] := by
            cases fuel <;> simp [xorKeyStreamLoop]
          rw [this, List.append_nil]
          exact List.take_of_length_le (by rw [hA]; omega)
      have hdrop : (xorKeyStreamLoop key (fuel + 1) inp counter).drop 64
          = xorKeyStreamLoop key fuel (inp.drop 64)
              (counter.take 8 ++ leBytes 8 ((leNat (counter.drop 8) + 1) % 2 ^ 64)) := by
        rw [hout]
        by_cases h64 : 64 ≤ inp.length
        · exact List.drop_left' (by rw [hA]; omega)
        · have : inp.drop 64 = [] := List.drop_eq_nil_of_le (by omega)
          rw [this]
          have : xorKeyStreamLoop key fuel [] (counter.take 8 ++
              leBytes 8 ((leNat (counter.drop 8) + 1) % 2 ^ 64)) = [] := by
            cases fuel <;> simp [xorKeyStreamLoop]
          rw [this, List.append_nil]
          exact List.drop_eq_nil_of_le (by rw [hA]; omega)
      rw [xorKeyStreamLoop, if_neg hne, htake, hdrop, ih _ _ hrest,
        zipWith_xorByte_right _ _ (by rw [salsaCore_length, List.length_take]; omega)]
      exact List.take_append_drop 64 inp

theorem XORKeyStream_length (inp counter key : Bytes) :
    (XORKeyStream inp counter key).length = inp.length :=
  xorKeyStreamLoop_length key _ _ _ (Nat.le_refl _)

theorem XORKeyStream_involutive (inp counter key : Bytes) :
    XORKeyStream (XORKeyStream inp counter key) counter key = inp := by
  unfold XORKeyStream
  rw [xorKeyStreamLoop_length key _ _ _ (Nat.le_refl _)]
  exact xorKeyStreamLoop_involutive key _ _ _ (Nat.le_refl _)

theorem firstBlock_length (nonce key : Bytes) : (firstBlock nonce key).length = 64 := by
  simp [firstBlock, XORKeyStream_length, zeroArray]

theorem cryptBody_length (message nonce key : Bytes) :
    (cryptBody message nonce key).length = message.length := by
  simp only [cryptBody, List.length_append, List.length_zipWith, List.length_drop,
    firstBlock_length, XORKeyStream_length, List.length_take]
  omega

theorem cryptBody_involutive (message nonce key : Bytes) :
    cryptBody (cryptBody message nonce key) nonce key = message := by
  have hA : (List.zipWith xorByte ((firstBlock nonce key).drop 32) (message.take 32)).length
      = min 32 message.length := by
    simp only [List.length_zipWith, List.length_drop, firstBlock_length, List.length_take]; omega
  have hB := XORKeyStream_length (message.drop (message.take 32).length)
    ((setup nonce key).2.set 8 1) (setup nonce key).1
  have hml : (message.take 32).length = min 32 message.length := List.length_take _ _
  have htake : (cryptBody message nonce key).take 32
      = List.zipWith xorByte ((firstBlock nonce key).drop 32) (message.take 32) := by
    unfold cryptBody
    by_cases h32 : 32 ≤ message.length
    · exact List.take_left' (by rw [hA]; omega)
    · have hnil : XORKeyStream (message.drop (message.take 32).length)
          ((setup nonce key).2.set 8 1) (setup nonce key).1 = [] := by
        apply List.length_eq_zero.mp
        rw [hB, List.length_drop, hml]; omega
      rw [hnil, List.append_nil]
      exact List.take_of_length_le (by rw [hA]; omega)
  have hdrop : (cryptBody message nonce key).drop ((cryptBody message nonce key).take 32).length
      = XORKeyStream (message.drop (message.take 32).length)
          ((setup nonce key).2.set 8 1) (setup nonce key).1 := by
    rw [htake, hA]
    unfold cryptBody
    exact List.drop_left' hA
  rw [cryptBody, hdrop, htake, XORKeyStream_involutive,
    zipWith_xorByte_left _ _ (by
      simp only [List.length_drop, firstBlock_length, List.length_take]; omega)]
  rw [hml]
  by_cases h32 : 32 ≤ message.length
  · rw [Nat.min_eq_left h32]; exact List.take_append_drop 32 message
  · rw [Nat.min_eq_right (by omega), List.drop_length, List.append_nil]
    exact List.take_of_length_le (by omega)

theorem poly1305Sum_length (m key : Bytes) : (poly1305Sum m key).length = 16 := by
  simp [poly1305Sum, leBytes_length]

theorem sealBox_length (message nonce key : Bytes) :
    (sealBox message nonce key).length = message.length + 16 := by
  simp [sealBox, poly1305Sum_length, cryptBody_length]; omega

theorem sealBox_drop (message nonce key : Bytes) :
    (sealBox message nonce key).drop 16 = cryptBody message nonce key := by
  unfold sealBox
  exact List.drop_left' (poly1305Sum_length _ _)

theorem sealBox_tag (message nonce key : Bytes) :
    copy (zeroArray 16) (sealBox message nonce key)
      = poly1305Sum (cryptBody message nonce key) (copy (zeroArray 32) (firstBlock nonce key)) := by
  have h16 : 16 ≤ (sealBox message nonce key).length := by rw [sealBox_length]; omega
  simp only [copy, zeroArray, List.length_replicate]
  rw [List.drop_eq_nil_of_le (by simpa using h16), List.append_nil]
  unfold sealBox
  exact List.take_left' (poly1305Sum_length _ _)

theorem xsalsa20poly1305_Open (box n k : Bytes) :
    xsalsa20poly1305.Open box n k = openBox box n k := rfl

/-- The reference instance opens what it sealed. -/
theorem xsalsa20poly1305_opensSealed : xsalsa20poly1305.OpensSealed := by
  intro message n k _ _
  show openBox (sealBox message n k) n k = some message
  unfold openBox
  rw [if_neg (by rw [sealBox_length]; omega), sealBox_drop, sealBox_tag]
  simp [cryptBody_involutive]

theorem seal_wrong_count (sb : Secretbox) (enc : Encoding) (w : World) (ctx : Context)
    (h : ctx.args.length ≠ 2) :
    secretboxSealAction sb enc w ctx
      = ⟨some (Error.numberOfArguments ctx.args.length 2), []⟩ := by
  simp [secretboxSealAction, errs.NumberOfArguments, h]

theorem open_wrong_count (sb : Secretbox) (enc : Encoding) (w : World) (ctx : Context)
    (h : ctx.args.length ≠ 2) :
    secretboxOpenAction sb enc w ctx
      = ⟨some (Error.numberOfArguments ctx.args.length 2), []⟩ := by
  simp [secretboxOpenAction, errs.NumberOfArguments, h]

theorem seal_long_nonce (sb : Secretbox) (enc : Encoding) (w : World) (raw : Bool)
    (nonce keyFile : GoString) (h : 24 < nonce.length) :
    secretboxSealAction sb enc w ⟨[nonce, keyFile], raw⟩
      = ⟨some (Error.new "nonce cannot be longer than 24 bytes"), []⟩ := by
  simp [secretboxSealAction, errs.NumberOfArguments, h]

theorem open_long_nonce (sb : Secretbox) (enc : Encoding) (w : World) (raw : Bool)
    (nonce keyFile : GoString) (h : 24 < nonce.length) :
    secretboxOpenAction sb enc w ⟨[nonce, keyFile], raw⟩
      = ⟨some (Error.new "nonce cannot be longer than 24 bytes"), []⟩ := by
  simp [secretboxOpenAction, errs.NumberOfArguments, h]

theorem seal_unreadable_key (sb : Secretbox) (enc : Encoding) (w : World) (raw : Bool)
    (nonce keyFile : GoString) (err : Cause) (hn : nonce.length ≤ 24)
    (hf : w.readFile keyFile = Except.error err) :
    secretboxSealAction sb enc w ⟨[nonce, keyFile], raw⟩
      = ⟨some (errs.FileError err keyFile), [Event.readFile keyFile]⟩ := by
  have hn' : ¬ 24 < nonce.length := by omega
  simp [secretboxSealAction, errs.NumberOfArguments, hn', hf]

theorem open_unreadable_key (sb : Secretbox) (enc : Encoding) (w : World) (raw : Bool)
    (nonce keyFile : GoString) (err : Cause) (hn : nonce.length ≤ 24)
    (hf : w.readFile keyFile = Except.error err) :
    secretboxOpenAction sb enc w ⟨[nonce, keyFile], raw⟩
      = ⟨some (errs.FileError err keyFile), [Event.readFile keyFile]⟩ := by
  have hn' : ¬ 24 < nonce.length := by omega
  simp [secretboxOpenAction, errs.NumberOfArguments, hn', hf]

theorem seal_bad_key_length (sb : Secretbox) (enc : Encoding) (w : World) (raw : Bool)
    (nonce keyFile : GoString) (key : Bytes) (hn : nonce.length ≤ 24)
    (hf : w.readFile keyFile = Except.ok key) (hk : key.length ≠ 32) :
    secretboxSealAction sb enc w ⟨[nonce, keyFile], raw⟩
      = ⟨some (Error.new "invalid key: key size is not 32 bytes"), [Event.readFile keyFile]⟩ := by
  have hn' : ¬ 24 < nonce.length := by omega
  simp [secretboxSealAction, errs.NumberOfArguments, hn', hf, hk]

theorem open_bad_key_length (sb : Secretbox) (enc : Encoding) (w : World) (raw : Bool)
    (nonce keyFile : GoString) (key : Bytes) (hn : nonce.length ≤ 24)
    (hf : w.readFile keyFile = Except.ok key) (hk : key.length ≠ 32) :
    secretboxOpenAction sb enc w ⟨[nonce, keyFile], raw⟩
      = ⟨some (Error.new "invalid key file: key size is not 32 bytes"),
          [Event.readFile keyFile]⟩ := by
  have hn' : ¬ 24 < nonce.length := by omega
  simp [secretboxOpenAction, errs.NumberOfArguments, hn', hf, hk]

theorem seal_input_error (sb : Secretbox) (enc : Encoding) (w : World) (raw : Bool)
    (nonce keyFile : GoString) (key : Bytes) (err : Cause) (hn : nonce.length ≤ 24)
    (hf : w.readFile keyFile = Except.ok key) (hk : key.length = 32)
    (hi : w.readInput "Please enter text to seal" = Except.error err) :
    secretboxSealAction sb enc w ⟨[nonce, keyFile], raw⟩
      = ⟨some (Error.wrap err "error reading input"),
          [Event.readFile keyFile, Event.readInput "Please enter text to seal"]⟩ := by
  have hn' : ¬ 24 < nonce.length := by omega
  simp [secretboxSealAction, errs.NumberOfArguments, hn', hf, hk, hi]

theorem open_input_error (sb : Secretbox) (enc : Encoding) (w : World) (raw : Bool)
    (nonce keyFile : GoString) (key : Bytes) (err : Cause) (hn : nonce.length ≤ 24)
    (hf : w.readFile keyFile = Except.ok key) (hk : key.length = 32)
    (hi : w.readAll = Except.error err) :
    secretboxOpenAction sb enc w ⟨[nonce, keyFile], raw⟩
      = ⟨some (Error.wrap err "error reading input"),
          [Event.readFile keyFile, Event.readAll]⟩ := by
  have hn' : ¬ 24 < nonce.length := by omega
  simp [secretboxOpenAction, errs.NumberOfArguments, hn', hf, hk, hi]

theorem two_args (ctx : Context) (h : ctx.args.length = 2) :
    ∃ nonce keyFile, ctx = ⟨[nonce, keyFile], ctx.raw⟩ := by
  obtain ⟨a, b, hab⟩ := List.length_eq_two.mp h
  exact ⟨a, b, by cases ctx; simp_all⟩

/-! ## Lemmas: the two actions on a validated invocation -/

theorem pad_nonce (nonce : Bytes) (h : nonce.length ≤ 24) :
    copy (zeroArray 24) nonce = nonce ++ zeroArray (24 - nonce.length) :=
  copy_zeroArray_take 24 nonce h

theorem pad_key (key : Bytes) (h : key.length = 32) : copy (zeroArray 32) key = key :=
  copy_of_length_eq _ _ (by simp [zeroArray, h])

theorem seal_validated (sb : Secretbox) (enc : Encoding) (w : World) (raw : Bool)
    (nonce keyFile : GoString) (key input : Bytes)
    (hn : nonce.length ≤ 24) (hf : w.readFile keyFile = Except.ok key) (hk : key.length = 32)
    (hi : w.readInput "Please enter text to seal" = Except.ok input) :
    secretboxSealAction sb enc w ⟨[nonce, keyFile], raw⟩ =
      ⟨none, [Event.readFile keyFile, Event.readInput "Please enter text to seal",
        Event.sealCall input (nonce ++ zeroArray (24 - nonce.length)) key,
        if raw then Event.stdoutWrite (sb.Seal input (nonce ++ zeroArray (24 - nonce.length)) key)
        else fmtPrintln (enc.EncodeToString
          (sb.Seal input (nonce ++ zeroArray (24 - nonce.length)) key))]⟩ := by
  have hn' : ¬ nonce.length > 24 := by omega
  simp [secretboxSealAction, errs.NumberOfArguments, hn', hf, hk, hi, pad_nonce nonce hn,
    pad_key key hk]

theorem seal_validated_stdout (sb : Secretbox) (enc : Encoding) (w : World) (raw : Bool)
    (nonce keyFile : GoString) (key input : Bytes)
    (hn : nonce.length ≤ 24) (hf : w.readFile keyFile = Except.ok key) (hk : key.length = 32)
    (hi : w.readInput "Please enter text to seal" = Except.ok input) :
    (secretboxSealAction sb enc w ⟨[nonce, keyFile], raw⟩).stdout =
      if raw then sb.Seal input (nonce ++ zeroArray (24 - nonce.length)) key
      else enc.EncodeToString (sb.Seal input (nonce ++ zeroArray (24 - nonce.length)) key)
        ++ [10] := by
  rw [seal_validated sb enc w raw nonce keyFile key input hn hf hk hi]
  cases raw <;> simp [Outcome.stdout, stdoutOf, fmtPrintln]

theorem open_validated (sb : Secretbox) (enc : Encoding) (w : World) (raw : Bool)
    (nonce keyFile : GoString) (key input : Bytes)
    (hn : nonce.length ≤ 24) (hf : w.readFile keyFile = Except.ok key) (hk : key.length = 32)
    (hi : w.readAll = Except.ok input) :
    secretboxOpenAction sb enc w ⟨[nonce, keyFile], raw⟩ =
      match (if raw then Except.ok input else enc.decodeLoop input [] []) with
      | Except.error err =>
        ⟨some (Error.wrap err "error decoding base64 input"),
          [Event.readFile keyFile, Event.readAll]⟩
      | Except.ok rawInput =>
        match sb.Open rawInput (nonce ++ zeroArray (24 - nonce.length)) key with
        | none =>
          ⟨some (Error.new "error authenticating or decrypting input"),
            [Event.readFile keyFile, Event.readAll,
              Event.openCall rawInput (nonce ++ zeroArray (24 - nonce.length)) key]⟩
        | some plain =>
          ⟨none, [Event.readFile keyFile, Event.readAll,
            Event.openCall rawInput (nonce ++ zeroArray (24 - nonce.length)) key,
            Event.stdoutWrite plain]⟩ := by
  have hn' : ¬ nonce.length > 24 := by omega
  simp only [secretboxOpenAction, errs.NumberOfArguments, List.length_cons, List.length_nil,
    if_true, List.getD_cons_zero, List.getD_cons_succ, hn', if_false, hf, hk, hi,
    pad_nonce nonce hn, pad_key key hk, ne_eq, not_true_eq_false, Nat.reduceAdd,
    Encoding.Decode_take]

/-- What open does with a box `rawInput` it has read and decoded. -/
theorem open_decoded (sb : Secretbox) (enc : Encoding) (w : World) (raw : Bool)
    (nonce keyFile : GoString) (key input rawInput : Bytes)
    (hn : nonce.length ≤ 24) (hf : w.readFile keyFile = Except.ok key) (hk : key.length = 32)
    (hi : w.readAll = Except.ok input)
    (hd : (if raw then Except.ok input else enc.decodeLoop input [] []) = Except.ok rawInput) :
    (sb.Open rawInput (nonce ++ zeroArray (24 - nonce.length)) key = none →
      (secretboxOpenAction sb enc w ⟨[nonce, keyFile], raw⟩).err
          = some (Error.new "error authenticating or decrypting input")
        ∧ (secretboxOpenAction sb enc w ⟨[nonce, keyFile], raw⟩).stdout = [])
    ∧ (∀ plain, sb.Open rawInput (nonce ++ zeroArray (24 - nonce.length)) key = some plain →
      (secretboxOpenAction sb enc w ⟨[nonce, keyFile], raw⟩).err = none
        ∧ (secretboxOpenAction sb enc w ⟨[nonce, keyFile], raw⟩).stdout = plain) := by
  rw [open_validated sb enc w raw nonce keyFile key input hn hf hk hi, hd]
  constructor
  · intro ho
    simp only [ho]
    exact ⟨trivial, rfl⟩
  · intro plain ho
    simp only [ho]
    exact ⟨trivial, by simp [Outcome.stdout, stdoutOf]⟩

/-- What open does with an input that is not base64 (raw flag unset). -/
theorem open_undecodable (sb : Secretbox) (enc : Encoding) (w : World)
    (nonce keyFile : GoString) (key input : Bytes) (err : Cause)
    (hn : nonce.length ≤ 24) (hf : w.readFile keyFile = Except.ok key) (hk : key.length = 32)
    (hi : w.readAll = Except.ok input)
    (hd : enc.decodeLoop input [] [] = Except.error err) :
    (secretboxOpenAction sb enc w ⟨[nonce, keyFile], false⟩).err
        = some (Error.wrap err "error decoding base64 input")
      ∧ (secretboxOpenAction sb enc w ⟨[nonce, keyFile], false⟩).stdout = [] := by
  rw [open_validated sb enc w false nonce keyFile key input hn hf hk hi]
  simp only [Bool.false_eq_true, if_false, hd]
  exact ⟨trivial, rfl⟩

/-! ## Evaluations of the reference instance -/

/-- The reference instance reproduces the NaCl secretbox test vector. -/
theorem sealBox_nacl_vector : sealBox naclMessage naclNonce exampleKey = naclBox := by
  decide!

/-- The reference instance opens the NaCl secretbox test vector. -/
theorem openBox_nacl_vector : openBox naclBox naclNonce exampleKey = some naclMessage := by
  decide!

/-- The box of `message` under the nonce `unique nonce` and `exampleKey`. -/
theorem sealBox_message :
    sealBox (ascii "message") (ascii "unique nonce" ++ zeroArray 12) exampleKey
      = [195, 219, 190, 228, 189, 228, 192, 35, 24, 244, 28, 233, 9, 89, 186, 191,
         53, 89, 72, 19, 198, 17, 91] := by
  decide!

/-- The box of `message` does not open under `otherKey`. -/
theorem openBox_message_otherKey :
    openBox [195, 219, 190, 228, 189, 228, 192, 35, 24, 244, 28, 233, 9, 89, 186, 191,
         53, 89, 72, 19, 198, 17, 91] (ascii "unique nonce" ++ zeroArray 12) otherKey = none := by
  decide!

/-- The Poly1305 key of the scenario: nonce `unique nonce`, `exampleKey`. -/
theorem polyKey_scenario :
    copy (zeroArray 32) (firstBlock (ascii "unique nonce" ++ zeroArray 12) exampleKey)
      = [99, 16, 236, 218, 176, 27, 245, 17, 176, 121, 191, 58, 71, 97, 109, 90,
         105, 18, 62, 100, 150, 114, 33, 85, 31, 235, 123, 130, 213, 220, 149, 47] := by
  decide!

/-- The reference instance rejects the box of the scenario with any one of its
184 bits flipped. -/
theorem openBox_message_flipped :
    ∀ i, i < 184 →
      openBox (flipBit [195, 219, 190, 228, 189, 228, 192, 35, 24, 244, 28, 233, 9, 89, 186, 191,
         53, 89, 72, 19, 198, 17, 91] i) (ascii "unique nonce" ++ zeroArray 12) exampleKey
        = none := by
  unfold openBox
  rw [polyKey_scenario]
  decide!

/-- The scenario of the spec: sealing `message` with the nonce `unique nonce`
and `exampleKey` prints this text. -/
theorem seal_scenario_stdout :
    (secretboxSealAction xsalsa20poly1305 rawURLEncoding (keyWorld [] (ascii "message"))
        (exampleContext (ascii "unique nonce") false)).stdout
      = ascii "w9u-5L3kwCMY9BzpCVm6vzVZSBPGEVs\n" := by
  have h := seal_validated_stdout xsalsa20poly1305 rawURLEncoding (keyWorld [] (ascii "message"))
    false (ascii "unique nonce") (ascii "secretbox.key") exampleKey (ascii "message")
    (by decide) rfl (by decide) rfl
  have hbox : xsalsa20poly1305.Seal (ascii "message")
      (ascii "unique nonce" ++ zeroArray (24 - (ascii "unique nonce").length)) exampleKey
      = [195, 219, 190, 228, 189, 228, 192, 35, 24, 244, 28, 233, 9, 89, 186, 191,
         53, 89, 72, 19, 198, 17, 91] := sealBox_message
  rw [hbox] at h
  exact h.trans (by decide)

/-- The scenario with the reference instance and a wrong key: the text seal
printed for `message` is refused with the authentication error when the key
file holds `otherKey`. -/
theorem scenario_wrong_key_rejected :
    (secretboxOpenAction xsalsa20poly1305 rawURLEncoding
        (exampleWorld [(ascii "secretbox.key", otherKey)]
          (ascii "w9u-5L3kwCMY9BzpCVm6vzVZSBPGEVs\n") [])
        (exampleContext (ascii "unique nonce") false)).err
      = some (Error.new "error authenticating or decrypting input")
    ∧ (secretboxOpenAction xsalsa20poly1305 rawURLEncoding
        (exampleWorld [(ascii "secretbox.key", otherKey)]
          (ascii "w9u-5L3kwCMY9BzpCVm6vzVZSBPGEVs\n") [])
        (exampleContext (ascii "unique nonce") false)).stdout = [] := by
  have hopen : xsalsa20poly1305.Open
      [195, 219, 190, 228, 189, 228, 192, 35, 24, 244, 28, 233, 9, 89, 186, 191,
         53, 89, 72, 19, 198, 17, 91]
      (ascii "unique nonce" ++ zeroArray (24 - (ascii "unique nonce").length)) otherKey
      = none := by
    have hpad : ascii "unique nonce" ++ zeroArray (24 - (ascii "unique nonce").length)
        = ascii "unique nonce" ++ zeroArray 12 := by decide
    rw [hpad, xsalsa20poly1305_Open]
    exact openBox_message_otherKey
  exact (open_decoded xsalsa20poly1305 rawURLEncoding
    (exampleWorld [(ascii "secretbox.key", otherKey)]
      (ascii "w9u-5L3kwCMY9BzpCVm6vzVZSBPGEVs\n") []) false
    (ascii "unique nonce") (ascii "secretbox.key") otherKey
    (ascii "w9u-5L3kwCMY9BzpCVm6vzVZSBPGEVs\n")
    [195, 219, 190, 228, 189, 228, 192, 35, 24, 244, 28, 233, 9, 89, 186, 191,
      53, 89, 72, 19, 198, 17, 91] (by decide) rfl (by decide) rfl rfl).1 hopen

/-- The scenario with the reference instance and a flipped bit: whichever of
the 184 bits of the box sealed for `message` is flipped, and whether the box
is fed raw or as base64 text, open fails with the authentication error and
writes nothing. -/
theorem scenario_bit_flip_rejected (i : Nat) (hi : i < 184) (raw : Bool) :
    (secretboxOpenAction xsalsa20poly1305 rawURLEncoding
        (keyWorld (if raw then
            flipBit [195, 219, 190, 228, 189, 228, 192, 35, 24, 244, 28, 233, 9, 89, 186, 191,
              53, 89, 72, 19, 198, 17, 91] i
          else rawURLEncoding.EncodeToString
            (flipBit [195, 219, 190, 228, 189, 228, 192, 35, 24, 244, 28, 233, 9, 89, 186, 191,
              53, 89, 72, 19, 198, 17, 91] i) ++ [10]) [])
        (exampleContext (ascii "unique nonce") raw)).err
      = some (Error.new "error authenticating or decrypting input")
    ∧ (secretboxOpenAction xsalsa20poly1305 rawURLEncoding
        (keyWorld (if raw then
            flipBit [195, 219, 190, 228, 189, 228, 192, 35, 24, 244, 28, 233, 9, 89, 186, 191,
              53, 89, 72, 19, 198, 17, 91] i
          else rawURLEncoding.EncodeToString
            (flipBit [195, 219, 190, 228, 189, 228, 192, 35, 24, 244, 28, 233, 9, 89, 186, 191,
              53, 89, 72, 19, 198, 17, 91] i) ++ [10]) [])
        (exampleContext (ascii "unique nonce") raw)).stdout = [] := by
  have hopen : xsalsa20poly1305.Open
      (flipBit [195, 219, 190, 228, 189, 228, 192, 35, 24, 244, 28, 233, 9, 89, 186, 191,
         53, 89, 72, 19, 198, 17, 91] i)
      (ascii "unique nonce" ++ zeroArray (24 - (ascii "unique nonce").length)) exampleKey
      = none := by
    have hpad : ascii "unique nonce" ++ zeroArray (24 - (ascii "unique nonce").length)
        = ascii "unique nonce" ++ zeroArray 12 := by decide
    rw [hpad, xsalsa20poly1305_Open]
    exact openBox_message_flipped i hi
  exact (open_decoded xsalsa20poly1305 rawURLEncoding _ raw
    (ascii "unique nonce") (ascii "secretbox.key") exampleKey _ _ (by decide) rfl (by decide) rfl
    (sealed_output_decodes rawURLEncoding (by decide) raw _)).1 hopen

/-- Why C2 asks for nonces without a zero byte.  Both actions zero-pad the
nonce to 24 bytes, so inside the process, where a Go string may hold a zero
byte (a command-line argument may not), `unique nonce` followed by a zero byte
is the same nonce as `unique nonce`: open run with it on the text sealed under
`unique nonce` succeeds and writes `message`. -/
theorem zero_padded_nonce_opens :
    (secretboxOpenAction xsalsa20poly1305 rawURLEncoding
        (keyWorld (ascii "w9u-5L3kwCMY9BzpCVm6vzVZSBPGEVs\n") [])
        (exampleContext (ascii "unique nonce" ++ [0]) false)).err = none
    ∧ (secretboxOpenAction xsalsa20poly1305 rawURLEncoding
        (keyWorld (ascii "w9u-5L3kwCMY9BzpCVm6vzVZSBPGEVs\n") [])
        (exampleContext (ascii "unique nonce" ++ [0]) false)).stdout = ascii "message" := by
  have hopen : xsalsa20poly1305.Open
      [195, 219, 190, 228, 189, 228, 192, 35, 24, 244, 28, 233, 9, 89, 186, 191,
         53, 89, 72, 19, 198, 17, 91]
      ((ascii "unique nonce" ++ [0])
        ++ zeroArray (24 - (ascii "unique nonce" ++ [0]).length)) exampleKey
      = some (ascii "message") := by
    have hpad : (ascii "unique nonce" ++ [0])
        ++ zeroArray (24 - (ascii "unique nonce" ++ [0]).length)
        = ascii "unique nonce" ++ zeroArray 12 := by decide
    rw [hpad, ← sealBox_message]
    exact xsalsa20poly1305_opensSealed _ _ _ (by decide) (by decide)
  exact (open_decoded xsalsa20poly1305 rawURLEncoding
    (keyWorld (ascii "w9u-5L3kwCMY9BzpCVm6vzVZSBPGEVs\n") []) false
    (ascii "unique nonce" ++ [0]) (ascii "secretbox.key") exampleKey
    (ascii "w9u-5L3kwCMY9BzpCVm6vzVZSBPGEVs\n")
    [195, 219, 190, 228, 189, 228, 192, 35, 24, 244, 28, 233, 9, 89, 186, 191,
      53, 89, 72, 19, 198, 17, 91] (by decide) rfl (by decide) rfl rfl).2
    (ascii "message") hopen

/-! ## Properties -/

/-- C1. Round trip: for every plaintext, every nonce of at most 24 bytes and
every 32-byte key, with a primitive that opens what it sealed and a well-formed
base64 alphabet, `secretboxSealAction` succeeds and `secretboxOpenAction`, run
with the same nonce and key on exactly the bytes seal wrote to standard output,
succeeds and writes exactly the plaintext, with the raw flag set on both or
unset on both. -/
theorem seal_open_round_trip (sb : Secretbox) (enc : Encoding)
    (hsb : sb.OpensSealed) (henc : enc.WellFormed) (raw : Bool)
    (plain nonce key : Bytes) (sealKeyFile openKeyFile : GoString) (sealWorld openWorld : World)
    (hn : nonce.length ≤ 24) (hk : key.length = 32)
    (hfs : sealWorld.readFile sealKeyFile = Except.ok key)
    (hp : sealWorld.readInput "Please enter text to seal" = Except.ok plain)
    (hfo : openWorld.readFile openKeyFile = Except.ok key)
    (hin : openWorld.readAll = Except.ok
      (secretboxSealAction sb enc sealWorld ⟨[nonce, sealKeyFile], raw⟩).stdout) :
    (secretboxSealAction sb enc sealWorld ⟨[nonce, sealKeyFile], raw⟩).err = none
    ∧ (secretboxOpenAction sb enc openWorld ⟨[nonce, openKeyFile], raw⟩).err = none
    ∧ (secretboxOpenAction sb enc openWorld ⟨[nonce, openKeyFile], raw⟩).stdout = plain := by
  refine ⟨?_, ?_⟩
  · rw [seal_validated sb enc sealWorld raw nonce sealKeyFile key plain hn hfs hk hp]
  · rw [seal_validated_stdout sb enc sealWorld raw nonce sealKeyFile key plain hn hfs hk hp] at hin
    have hpad : (nonce ++ zeroArray (24 - nonce.length)).length = 24 := by
      simp [zeroArray]; omega
    exact (open_decoded sb enc openWorld raw nonce openKeyFile key _ _ hn hfo hk hin
      (sealed_output_decodes enc henc raw _)).2 plain (hsb plain _ key hpad hk)

/-- Witness of C1, the scenario of the spec: the text seal printed for `message`,
nonce `unique nonce`, opens to `message`. -/
theorem seal_open_round_trip_witness :
    (secretboxSealAction xsalsa20poly1305 rawURLEncoding (keyWorld [] (ascii "message"))
        (exampleContext (ascii "unique nonce") false)).err = none
    ∧ (secretboxOpenAction xsalsa20poly1305 rawURLEncoding
        (keyWorld (ascii "w9u-5L3kwCMY9BzpCVm6vzVZSBPGEVs\n") [])
        (exampleContext (ascii "unique nonce") false)).err = none
    ∧ (secretboxOpenAction xsalsa20poly1305 rawURLEncoding
        (keyWorld (ascii "w9u-5L3kwCMY9BzpCVm6vzVZSBPGEVs\n") [])
        (exampleContext (ascii "unique nonce") false)).stdout = ascii "message" :=
  seal_open_round_trip xsalsa20poly1305 rawURLEncoding xsalsa20poly1305_opensSealed (by decide)
    false (ascii "message") (ascii "unique nonce") exampleKey (ascii "secretbox.key")
    (ascii "secretbox.key") (keyWorld [] (ascii "message"))
    (keyWorld (ascii "w9u-5L3kwCMY9BzpCVm6vzVZSBPGEVs\n") [])
    (by decide) (by decide) rfl rfl rfl (congrArg Except.ok seal_scenario_stdout.symm)

/-- C4. Validation order of `secretboxSealAction`: the error returned is that of
the first failing check in the order (1) argument count other than 2, (2) nonce
longer than 24 bytes, (3) key file unreadable (a file error carrying the key-file
path), (4) key length other than 32; an over-long nonce is reported whatever the
state of the key file, which is then not even read; and the plaintext is read
only after all four checks have passed. -/
theorem seal_validation_order (sb : Secretbox) (enc : Encoding) (w : World) (ctx : Context) :
    (ctx.args.length ≠ 2 →
      (secretboxSealAction sb enc w ctx).err
        = some (Error.numberOfArguments ctx.args.length 2))
    ∧ (∀ nonce keyFile, ctx.args = [nonce, keyFile] → 24 < nonce.length →
      (secretboxSealAction sb enc w ctx).err
          = some (Error.new "nonce cannot be longer than 24 bytes")
        ∧ (secretboxSealAction sb enc w ctx).trace = [])
    ∧ (∀ nonce keyFile err, ctx.args = [nonce, keyFile] → nonce.length ≤ 24 →
      w.readFile keyFile = Except.error err →
      (secretboxSealAction sb enc w ctx).err = some (Error.fileError err keyFile))
    ∧ (∀ nonce keyFile key, ctx.args = [nonce, keyFile] → nonce.length ≤ 24 →
      w.readFile keyFile = Except.ok key → key.length ≠ 32 →
      (secretboxSealAction sb enc w ctx).err
        = some (Error.new "invalid key: key size is not 32 bytes"))
    ∧ (∀ prompt, Event.readInput prompt ∈ (secretboxSealAction sb enc w ctx).trace →
      ∃ nonce keyFile key, ctx.args = [nonce, keyFile] ∧ nonce.length ≤ 24
        ∧ w.readFile keyFile = Except.ok key ∧ key.length = 32) := by
  refine ⟨?_, ?_, ?_, ?_, ?_⟩
  · intro h
    rw [seal_wrong_count sb enc w ctx h]
  · intro nonce keyFile hargs hlong
    obtain ⟨args, raw⟩ := ctx
    subst hargs
    rw [seal_long_nonce sb enc w raw nonce keyFile hlong]
    exact ⟨rfl, rfl⟩
  · intro nonce keyFile err hargs hn hf
    obtain ⟨args, raw⟩ := ctx
    subst hargs
    rw [seal_unreadable_key sb enc w raw nonce keyFile err hn hf]
    rfl
  · intro nonce keyFile key hargs hn hf hk
    obtain ⟨args, raw⟩ := ctx
    subst hargs
    rw [seal_bad_key_length sb enc w raw nonce keyFile key hn hf hk]
  · intro prompt hmem
    by_cases hlen : ctx.args.length = 2
    · obtain ⟨nonce, keyFile, hctx⟩ := two_args ctx hlen
      have hargs : ctx.args = [nonce, keyFile] := by rw [hctx]
      rw [hctx] at hmem
      by_cases hn : nonce.length ≤ 24
      · cases hf : w.readFile keyFile with
        | error err =>
          rw [seal_unreadable_key sb enc w ctx.raw nonce keyFile err hn hf] at hmem
          simp at hmem
        | ok key =>
          by_cases hk : key.length = 32
          · exact ⟨nonce, keyFile, key, hargs, hn, hf, hk⟩
          · rw [seal_bad_key_length sb enc w ctx.raw nonce keyFile key hn hf hk] at hmem
            simp at hmem
      · rw [seal_long_nonce sb enc w ctx.raw nonce keyFile (by omega)] at hmem
        simp at hmem
    · rw [seal_wrong_count sb enc w ctx hlen] at hmem
      simp at hmem

/-- The example of C4: a 25-byte nonce together with a missing key file reports
the nonce-length error, and nothing has been read. -/
theorem seal_validation_order_witness :
    (secretboxSealAction xsalsa20poly1305 rawURLEncoding (exampleWorld [] [] (ascii "message"))
        (exampleContext (ascii "0123456789012345678901234") false)).err
      = some (Error.new "nonce cannot be longer than 24 bytes")
    ∧ (secretboxSealAction xsalsa20poly1305 rawURLEncoding (exampleWorld [] [] (ascii "message"))
        (exampleContext (ascii "0123456789012345678901234") false)).trace = [] :=
  (seal_validation_order xsalsa20poly1305 rawURLEncoding (exampleWorld [] [] (ascii "message"))
    (exampleContext (ascii "0123456789012345678901234") false)).2.1
    (ascii "0123456789012345678901234") (ascii "secretbox.key") rfl (by decide)

/-- C5. Length boundaries, for `secretboxSealAction` and `secretboxOpenAction`
given exactly 2 arguments and a readable key file: the nonce-length error is
returned if and only if the nonce is longer than 24 bytes; when the nonce is
accepted the key-length error is returned if and only if the key file does not
hold 32 bytes; and on every argument list and key-file state seal and open
return the same kind of validation error, or both none. -/
theorem length_boundaries (sb : Secretbox) (enc : Encoding) (w : World) (rawSeal rawOpen : Bool)
    (nonce keyFile : GoString) (key : Bytes) (hf : w.readFile keyFile = Except.ok key) :
    ((secretboxSealAction sb enc w ⟨[nonce, keyFile], rawSeal⟩).errKind
        = some ErrorKind.nonceLength ↔ 24 < nonce.length)
    ∧ ((secretboxOpenAction sb enc w ⟨[nonce, keyFile], rawOpen⟩).errKind
        = some ErrorKind.nonceLength ↔ 24 < nonce.length)
    ∧ (nonce.length ≤ 24 →
        ((secretboxSealAction sb enc w ⟨[nonce, keyFile], rawSeal⟩).errKind
          = some ErrorKind.keyLength ↔ key.length ≠ 32)
        ∧ ((secretboxOpenAction sb enc w ⟨[nonce, keyFile], rawOpen⟩).errKind
          = some ErrorKind.keyLength ↔ key.length ≠ 32))
    ∧ (∀ (world : World) (args : List GoString),
        (secretboxSealAction sb enc world ⟨args, rawSeal⟩).validationError
          = (secretboxOpenAction sb enc world ⟨args, rawOpen⟩).validationError) := by
  have hsealKind : ∀ (world : World) (n kf : GoString) (k : Bytes), n.length ≤ 24 →
      world.readFile kf = Except.ok k → k.length = 32 →
      (secretboxSealAction sb enc world ⟨[n, kf], rawSeal⟩).errKind = none
      ∨ (secretboxSealAction sb enc world ⟨[n, kf], rawSeal⟩).errKind
          = some ErrorKind.inputRead := by
    intro world n kf k hn hfk hk
    cases hi : world.readInput "Please enter text to seal" with
    | error err =>
      rw [seal_input_error sb enc world rawSeal n kf k err hn hfk hk hi]
      exact Or.inr (by simp [Outcome.errKind, Error.kind])
    | ok input =>
      rw [seal_validated sb enc world rawSeal n kf k input hn hfk hk hi]
      exact Or.inl rfl
  have hopenKind : ∀ (world : World) (n kf : GoString) (k : Bytes), n.length ≤ 24 →
      world.readFile kf = Except.ok k → k.length = 32 →
      (secretboxOpenAction sb enc world ⟨[n, kf], rawOpen⟩).errKind = none
      ∨ (secretboxOpenAction sb enc world ⟨[n, kf], rawOpen⟩).errKind
          = some ErrorKind.inputRead
      ∨ (secretboxOpenAction sb enc world ⟨[n, kf], rawOpen⟩).errKind
          = some ErrorKind.encoding
      ∨ (secretboxOpenAction sb enc world ⟨[n, kf], rawOpen⟩).errKind
          = some ErrorKind.authentication := by
    intro world n kf k hn hfk hk
    cases hi : world.readAll with
    | error err =>
      rw [open_input_error sb enc world rawOpen n kf k err hn hfk hk hi]
      exact Or.inr (Or.inl (by simp [Outcome.errKind, Error.kind]))
    | ok input =>
      rw [open_validated sb enc world rawOpen n kf k input hn hfk hk hi]
      split
      · exact Or.inr (Or.inr (Or.inl (by simp [Outcome.errKind, Error.kind])))
      · split
        · exact Or.inr (Or.inr (Or.inr (by simp [Outcome.errKind, Error.kind])))
        · exact Or.inl rfl
  refine ⟨?_, ?_, ?_, ?_⟩
  · constructor
    · intro h
      by_contra hn
      have hn : nonce.length ≤ 24 := by omega
      by_cases hk : key.length = 32
      · rcases hsealKind w nonce keyFile key hn hf hk with h1 | h1 <;> rw [h1] at h <;> cases h
      · rw [seal_bad_key_length sb enc w rawSeal nonce keyFile key hn hf hk] at h
        simp [Outcome.errKind, Error.kind] at h
    · intro h
      rw [seal_long_nonce sb enc w rawSeal nonce keyFile h]
      simp [Outcome.errKind, Error.kind]
  · constructor
    · intro h
      by_contra hn
      have hn : nonce.length ≤ 24 := by omega
      by_cases hk : key.length = 32
      · rcases hopenKind w nonce keyFile key hn hf hk with h1 | h1 | h1 | h1 <;>
          rw [h1] at h <;> cases h
      · rw [open_bad_key_length sb enc w rawOpen nonce keyFile key hn hf hk] at h
        simp [Outcome.errKind, Error.kind] at h
    · intro h
      rw [open_long_nonce sb enc w rawOpen nonce keyFile h]
      simp [Outcome.errKind, Error.kind]
  · intro hn
    constructor
    · constructor
      · intro h hk
        rcases hsealKind w nonce keyFile key hn hf hk with h1 | h1 <;> rw [h1] at h <;> cases h
      · intro hk
        rw [seal_bad_key_length sb enc w rawSeal nonce keyFile key hn hf hk]
        simp [Outcome.errKind, Error.kind]
    · constructor
      · intro h hk
        rcases hopenKind w nonce keyFile key hn hf hk with h1 | h1 | h1 | h1 <;>
          rw [h1] at h <;> cases h
      · intro hk
        rw [open_bad_key_length sb enc w rawOpen nonce keyFile key hn hf hk]
        simp [Outcome.errKind, Error.kind]
  · intro world args
    by_cases hlen : args.length = 2
    · obtain ⟨n, kf, hargs⟩ := List.length_eq_two.mp hlen
      subst hargs
      by_cases hn : n.length ≤ 24
      · cases hfk : world.readFile kf with
        | error err =>
          rw [seal_unreadable_key sb enc world rawSeal n kf err hn hfk,
            open_unreadable_key sb enc world rawOpen n kf err hn hfk]
        | ok k =>
          by_cases hk : k.length = 32
          · have hs : (secretboxSealAction sb enc world ⟨[n, kf], rawSeal⟩).validationError
                = none := by
              rcases hsealKind world n kf k hn hfk hk with h1 | h1 <;>
                simp [Outcome.validationError, h1, ErrorKind.isValidation]
            have ho : (secretboxOpenAction sb enc world ⟨[n, kf], rawOpen⟩).validationError
                = none := by
              rcases hopenKind world n kf k hn hfk hk with h1 | h1 | h1 | h1 <;>
                simp [Outcome.validationError, h1, ErrorKind.isValidation]
            rw [hs, ho]
          · rw [seal_bad_key_length sb enc world rawSeal n kf k hn hfk hk,
              open_bad_key_length sb enc world rawOpen n kf k hn hfk hk]
            simp [Outcome.validationError, Outcome.errKind, Error.kind, ErrorKind.isValidation]
      · rw [seal_long_nonce sb enc world rawSeal n kf (by omega),
          open_long_nonce sb enc world rawOpen n kf (by omega)]
    · rw [seal_wrong_count sb enc world ⟨args, rawSeal⟩ hlen,
        open_wrong_count sb enc world ⟨args, rawOpen⟩ hlen]

/-- Witness of C5: a 25-byte nonce is rejected and a 24-byte nonce is not; with
the 24-byte nonce, key files of 31 and of 33 bytes are rejected by seal and by
open, and the 32-byte key is not. -/
theorem length_boundaries_witness :
    (secretboxSealAction xsalsa20poly1305 rawURLEncoding (keyWorld [] (ascii "message"))
        (exampleContext (ascii "0123456789012345678901234") false)).errKind
      = some ErrorKind.nonceLength
    ∧ (secretboxOpenAction xsalsa20poly1305 rawURLEncoding (keyWorld [] (ascii "message"))
        (exampleContext (ascii "012345678901234567890123") false)).errKind
      ≠ some ErrorKind.nonceLength
    ∧ (secretboxSealAction xsalsa20poly1305 rawURLEncoding
        (exampleWorld [(ascii "secretbox.key", exampleKey.take 31)] [] (ascii "message"))
        (exampleContext (ascii "012345678901234567890123") false)).errKind
      = some ErrorKind.keyLength
    ∧ (secretboxOpenAction xsalsa20poly1305 rawURLEncoding
        (exampleWorld [(ascii "secretbox.key", exampleKey ++ [0])] [] (ascii "message"))
        (exampleContext (ascii "012345678901234567890123") false)).errKind
      = some ErrorKind.keyLength
    ∧ (secretboxSealAction xsalsa20poly1305 rawURLEncoding (keyWorld [] (ascii "message"))
        (exampleContext (ascii "012345678901234567890123") false)).errKind
      ≠ some ErrorKind.keyLength :=
  ⟨(length_boundaries xsalsa20poly1305 rawURLEncoding (keyWorld [] (ascii "message")) false false
      (ascii "0123456789012345678901234") (ascii "secretbox.key") exampleKey rfl).1.mpr
      (by decide),
   fun h => absurd ((length_boundaries xsalsa20poly1305 rawURLEncoding
      (keyWorld [] (ascii "message")) false false
      (ascii "012345678901234567890123") (ascii "secretbox.key") exampleKey rfl).2.1.mp h)
      (by decide),
   ((length_boundaries xsalsa20poly1305 rawURLEncoding
      (exampleWorld [(ascii "secretbox.key", exampleKey.take 31)] [] (ascii "message"))
      false false (ascii "012345678901234567890123") (ascii "secretbox.key")
      (exampleKey.take 31) rfl).2.2.1 (by decide)).1.mpr (by decide),
   ((length_boundaries xsalsa20poly1305 rawURLEncoding
      (exampleWorld [(ascii "secretbox.key", exampleKey ++ [0])] [] (ascii "message"))
      false false (ascii "012345678901234567890123") (ascii "secretbox.key")
      (exampleKey ++ [0]) rfl).2.2.1 (by decide)).2.mpr (by decide),
   fun h => absurd (((length_boundaries xsalsa20poly1305 rawURLEncoding
      (keyWorld [] (ascii "message")) false false
      (ascii "012345678901234567890123") (ascii "secretbox.key") exampleKey rfl).2.2.1
      (by decide)).1.mp h) (by decide)⟩

/-- C6. Nonce padding: for a nonce of length `L ≤ 24` and a 32-byte key file,
every call of the primitive by `secretboxSealAction` and by `secretboxOpenAction`
receives a 24-byte nonce whose first `L` bytes are the supplied nonce and whose
other `24 - L` bytes are zero, and as key exactly the content of the key file;
seal makes that call as soon as the plaintext is read, open as soon as its input
is read (raw mode). -/
theorem nonce_padding (sb : Secretbox) (enc : Encoding) (w : World) (raw : Bool)
    (nonce keyFile : GoString) (key : Bytes)
    (hn : nonce.length ≤ 24) (hf : w.readFile keyFile = Except.ok key) (hk : key.length = 32) :
    (∀ message n k,
        Event.sealCall message n k ∈ (secretboxSealAction sb enc w ⟨[nonce, keyFile], raw⟩).trace →
        n.length = 24 ∧ n.take nonce.length = nonce
          ∧ n.drop nonce.length = List.replicate (24 - nonce.length) 0 ∧ k = key)
    ∧ (∀ box n k,
        Event.openCall box n k ∈ (secretboxOpenAction sb enc w ⟨[nonce, keyFile], raw⟩).trace →
        n.length = 24 ∧ n.take nonce.length = nonce
          ∧ n.drop nonce.length = List.replicate (24 - nonce.length) 0 ∧ k = key)
    ∧ (∀ input, w.readInput "Please enter text to seal" = Except.ok input →
        Event.sealCall input (nonce ++ zeroArray (24 - nonce.length)) key
          ∈ (secretboxSealAction sb enc w ⟨[nonce, keyFile], raw⟩).trace)
    ∧ (∀ input, w.readAll = Except.ok input → raw = true →
        Event.openCall input (nonce ++ zeroArray (24 - nonce.length)) key
          ∈ (secretboxOpenAction sb enc w ⟨[nonce, keyFile], raw⟩).trace) := by
  have hpad : (nonce ++ zeroArray (24 - nonce.length)).length = 24
      ∧ (nonce ++ zeroArray (24 - nonce.length)).take nonce.length = nonce
      ∧ (nonce ++ zeroArray (24 - nonce.length)).drop nonce.length
          = List.replicate (24 - nonce.length) 0 := by
    refine ⟨?_, ?_, ?_⟩
    · simp [zeroArray]; omega
    · simp
    · simp [zeroArray]
  refine ⟨?_, ?_, ?_, ?_⟩
  · intro message n k hmem
    cases hi : w.readInput "Please enter text to seal" with
    | error err =>
      rw [seal_input_error sb enc w raw nonce keyFile key err hn hf hk hi] at hmem
      simp at hmem
    | ok input =>
      rw [seal_validated sb enc w raw nonce keyFile key input hn hf hk hi] at hmem
      have : n = nonce ++ zeroArray (24 - nonce.length) ∧ k = key := by
        cases raw <;> simp [fmtPrintln] at hmem <;> exact ⟨hmem.2.1, hmem.2.2⟩
      rw [this.1, this.2]
      exact ⟨hpad.1, hpad.2.1, hpad.2.2, rfl⟩
  · intro box n k hmem
    cases hi : w.readAll with
    | error err =>
      rw [open_input_error sb enc w raw nonce keyFile key err hn hf hk hi] at hmem
      simp at hmem
    | ok input =>
      rw [open_validated sb enc w raw nonce keyFile key input hn hf hk hi] at hmem
      have : n = nonce ++ zeroArray (24 - nonce.length) ∧ k = key := by
        split at hmem
        · simp at hmem
        · split at hmem <;> simp at hmem <;> exact ⟨hmem.2.1, hmem.2.2⟩
      rw [this.1, this.2]
      exact ⟨hpad.1, hpad.2.1, hpad.2.2, rfl⟩
  · intro input hi
    rw [seal_validated sb enc w raw nonce keyFile key input hn hf hk hi]
    simp
  · intro input hi hraw
    rw [open_validated sb enc w raw nonce keyFile key input hn hf hk hi]
    subst hraw
    simp only [if_true]
    cases sb.Open input (nonce ++ zeroArray (24 - nonce.length)) key <;> simp

/-- Witness of C6: the nonce `unique nonce` (12 bytes) reaches `Seal` followed by
12 zero bytes, with the key of the key file. -/
theorem nonce_padding_witness :
    Event.sealCall (ascii "message")
        (ascii "unique nonce" ++ [0, 0, 0, 0, 0, 0, 0, 0, 0, 0, 0, 0]) exampleKey
      ∈ (secretboxSealAction xsalsa20poly1305 rawURLEncoding (keyWorld [] (ascii "message"))
          (exampleContext (ascii "unique nonce") false)).trace :=
  (nonce_padding xsalsa20poly1305 rawURLEncoding (keyWorld [] (ascii "message")) false
    (ascii "unique nonce") (ascii "secretbox.key") exampleKey
    (by decide) rfl (by decide)).2.2.1 (ascii "message") rfl

/-- C7. Seal output encoding: on a valid invocation of `secretboxSealAction` (two
arguments, nonce of at most 24 bytes, 32-byte key, plaintext read successfully)
the action returns nil and standard output receives, with `C` the box `Seal`
returns for the plaintext, the zero-padded nonce and the key: exactly `C` when
the raw flag is set, exactly the `b64Encoder` text of `C` and one newline when
it is not. -/
theorem seal_output_encoding (sb : Secretbox) (enc : Encoding) (w : World) (raw : Bool)
    (nonce keyFile : GoString) (key input : Bytes)
    (hn : nonce.length ≤ 24) (hf : w.readFile keyFile = Except.ok key) (hk : key.length = 32)
    (hi : w.readInput "Please enter text to seal" = Except.ok input) :
    (secretboxSealAction sb enc w ⟨[nonce, keyFile], raw⟩).err = none
    ∧ (secretboxSealAction sb enc w ⟨[nonce, keyFile], raw⟩).stdout =
        if raw then sb.Seal input (nonce ++ zeroArray (24 - nonce.length)) key
        else enc.EncodeToString (sb.Seal input (nonce ++ zeroArray (24 - nonce.length)) key)
          ++ [10] := by
  rw [seal_validated sb enc w raw nonce keyFile key input hn hf hk hi]
  cases raw <;> simp [Outcome.stdout, stdoutOf, fmtPrintln]

/-- Witness of C7 in the scenario of the spec, base64 output. -/
theorem seal_output_encoding_witness :
    (secretboxSealAction xsalsa20poly1305 rawURLEncoding (keyWorld [] (ascii "message"))
        (exampleContext (ascii "unique nonce") false)).err = none
    ∧ (secretboxSealAction xsalsa20poly1305 rawURLEncoding (keyWorld [] (ascii "message"))
        (exampleContext (ascii "unique nonce") false)).stdout =
      rawURLEncoding.EncodeToString
        (sealBox (ascii "message") (ascii "unique nonce" ++ zeroArray 12) exampleKey) ++ [10] :=
  seal_output_encoding xsalsa20poly1305 rawURLEncoding (keyWorld [] (ascii "message")) false
    (ascii "unique nonce") (ascii "secretbox.key") exampleKey (ascii "message")
    (by decide) rfl (by decide) rfl

/-- C8. Open input decoding: on an invocation of `secretboxOpenAction` that
passes validation and reads the bytes `input` from standard input: with the raw
flag set, `Open` is called on exactly `input` and no decoding error is returned;
with the raw flag unset, if `b64Encoder.Decode` succeeds with `n` bytes written
to the buffer `rawInput`, the slice `rawInput[:n]` is in range, holds the decoded
bytes, and is what `Open` is called on, and if `Decode` fails the action returns
the error wrapped as "error decoding base64 input" without calling `Open`. -/
theorem open_input_decoding (sb : Secretbox) (enc : Encoding) (w : World) (raw : Bool)
    (nonce keyFile : GoString) (key input : Bytes)
    (hn : nonce.length ≤ 24) (hf : w.readFile keyFile = Except.ok key) (hk : key.length = 32)
    (hi : w.readAll = Except.ok input) :
    (raw = true →
      (∀ box n k, Event.openCall box n k
          ∈ (secretboxOpenAction sb enc w ⟨[nonce, keyFile], raw⟩).trace ↔
        box = input ∧ n = nonce ++ zeroArray (24 - nonce.length) ∧ k = key)
      ∧ (secretboxOpenAction sb enc w ⟨[nonce, keyFile], raw⟩).errKind
          ≠ some ErrorKind.encoding)
    ∧ (raw = false →
      (∀ rawInput n,
        enc.Decode (zeroArray (enc.DecodedLen input.length)) input = Except.ok (rawInput, n) →
        n ≤ rawInput.length
        ∧ enc.decodeLoop input [] [] = Except.ok (rawInput.take n)
        ∧ ∀ box n' k, Event.openCall box n' k
            ∈ (secretboxOpenAction sb enc w ⟨[nonce, keyFile], raw⟩).trace ↔
          box = rawInput.take n ∧ n' = nonce ++ zeroArray (24 - nonce.length) ∧ k = key)
      ∧ (∀ err,
        enc.Decode (zeroArray (enc.DecodedLen input.length)) input = Except.error err →
        (secretboxOpenAction sb enc w ⟨[nonce, keyFile], raw⟩).err
            = some (Error.wrap err "error decoding base64 input")
          ∧ ∀ box n k, Event.openCall box n k
              ∉ (secretboxOpenAction sb enc w ⟨[nonce, keyFile], raw⟩).trace)) := by
  have hcalls : ∀ rawInput : Bytes,
      (if raw then Except.ok input else enc.decodeLoop input [] []) = Except.ok rawInput →
      ∀ box n k, Event.openCall box n k
          ∈ (secretboxOpenAction sb enc w ⟨[nonce, keyFile], raw⟩).trace ↔
        box = rawInput ∧ n = nonce ++ zeroArray (24 - nonce.length) ∧ k = key := by
    intro rawInput hd box n k
    rw [open_validated sb enc w raw nonce keyFile key input hn hf hk hi, hd]
    simp only
    split <;> simp
  refine ⟨?_, ?_⟩
  · intro hraw
    subst hraw
    refine ⟨hcalls input rfl, ?_⟩
    rw [open_validated sb enc w true nonce keyFile key input hn hf hk hi]
    simp only [if_true]
    cases sb.Open input (nonce ++ zeroArray (24 - nonce.length)) key <;>
      simp [Outcome.errKind, Error.kind]
  · intro hraw
    subst hraw
    have htake := enc.Decode_take input
    refine ⟨?_, ?_⟩
    · intro rawInput n hdec
      rw [hdec] at htake
      simp only at htake
      refine ⟨?_, htake.symm, hcalls (rawInput.take n) (by simpa using htake.symm)⟩
      unfold Encoding.Decode at hdec
      cases hd : enc.decodeLoop input [] [] with
      | error e => rw [hd] at hdec; cases hdec
      | ok d =>
        rw [hd] at hdec
        simp only [Except.ok.injEq, Prod.mk.injEq] at hdec
        have hlen := enc.decodeLoop_length input [] [] d (by simp) hd
        simp only [List.length_nil, Nat.zero_add] at hlen
        rw [← hdec.1, ← hdec.2, copy_length]
        simpa [zeroArray, Encoding.DecodedLen] using hlen
    · intro err hdec
      rw [hdec] at htake
      simp only at htake
      rw [open_validated sb enc w false nonce keyFile key input hn hf hk hi]
      simp only [Bool.false_eq_true, if_false, ← htake]
      constructor
      · trivial
      · simp

/-- Witness of C8: the text `bWVzc2FnZQ` followed by a newline is decoded to
the 7 bytes of `message` before `Open` sees it, and `bWVzc2FnZ`, which is not
base64, is refused with the decoding error. -/
theorem open_input_decoding_witness :
    (∀ box n k, Event.openCall box n k
        ∈ (secretboxOpenAction xsalsa20poly1305 rawStdEncoding (keyWorld (ascii "bWVzc2FnZQ\n") [])
            (exampleContext (ascii "unique nonce") false)).trace ↔
      box = ascii "message" ∧ n = ascii "unique nonce" ++ zeroArray 12 ∧ k = exampleKey)
    ∧ (secretboxOpenAction xsalsa20poly1305 rawStdEncoding (keyWorld (ascii "bWVzc2FnZ\n") [])
          (exampleContext (ascii "unique nonce") false)).err
        = some (Error.wrap Cause.corruptInput "error decoding base64 input") :=
  ⟨(((open_input_decoding xsalsa20poly1305 rawStdEncoding (keyWorld (ascii "bWVzc2FnZQ\n") [])
      false (ascii "unique nonce") (ascii "secretbox.key") exampleKey (ascii "bWVzc2FnZQ\n")
      (by decide) rfl (by decide) rfl).2 rfl).1
      (ascii "message" ++ zeroArray 1) 7 rfl).2.2,
   (((open_input_decoding xsalsa20poly1305 rawStdEncoding (keyWorld (ascii "bWVzc2FnZ\n") [])
      false (ascii "unique nonce") (ascii "secretbox.key") exampleKey (ascii "bWVzc2FnZ\n")
      (by decide) rfl (by decide) rfl).2 rfl).2 Cause.corruptInput rfl).1⟩

/-- C9. No output on failure: an invocation of `secretboxSealAction` or of
`secretboxOpenAction` that returns an error has written nothing to standard
output; and whatever `secretboxOpenAction` writes is the whole of its output and
is exactly what a call of the `Open` primitive returned on successful
authentication. -/
theorem no_output_on_failure (sb : Secretbox) (enc : Encoding) (w : World) (ctx : Context) :
    ((secretboxSealAction sb enc w ctx).err ≠ none →
      (secretboxSealAction sb enc w ctx).stdout = []
        ∧ ∀ p, Event.stdoutWrite p ∉ (secretboxSealAction sb enc w ctx).trace)
    ∧ ((secretboxOpenAction sb enc w ctx).err ≠ none →
      (secretboxOpenAction sb enc w ctx).stdout = []
        ∧ ∀ p, Event.stdoutWrite p ∉ (secretboxOpenAction sb enc w ctx).trace)
    ∧ (∀ p, Event.stdoutWrite p ∈ (secretboxOpenAction sb enc w ctx).trace →
      (secretboxOpenAction sb enc w ctx).err = none
        ∧ (secretboxOpenAction sb enc w ctx).stdout = p
        ∧ ∃ box n k, Event.openCall box n k ∈ (secretboxOpenAction sb enc w ctx).trace
            ∧ sb.Open box n k = some p) := by
  have hopen : ((secretboxOpenAction sb enc w ctx).err ≠ none
        ∧ (secretboxOpenAction sb enc w ctx).stdout = []
        ∧ ∀ p, Event.stdoutWrite p ∉ (secretboxOpenAction sb enc w ctx).trace)
      ∨ (∃ keyFile box n k p, sb.Open box n k = some p
        ∧ secretboxOpenAction sb enc w ctx = ⟨none, [Event.readFile keyFile, Event.readAll,
            Event.openCall box n k, Event.stdoutWrite p]⟩) := by
    by_cases hlen : ctx.args.length = 2
    · obtain ⟨nonce, keyFile, hctx⟩ := two_args ctx hlen
      rw [hctx]
      by_cases hn : nonce.length ≤ 24
      · cases hf : w.readFile keyFile with
        | error err =>
          rw [open_unreadable_key sb enc w ctx.raw nonce keyFile err hn hf]
          exact Or.inl ⟨by simp, rfl, by simp⟩
        | ok key =>
          by_cases hk : key.length = 32
          · cases hi : w.readAll with
            | error err =>
              rw [open_input_error sb enc w ctx.raw nonce keyFile key err hn hf hk hi]
              exact Or.inl ⟨by simp, rfl, by simp⟩
            | ok input =>
              rw [open_validated sb enc w ctx.raw nonce keyFile key input hn hf hk hi]
              split
              · exact Or.inl ⟨by simp, rfl, by simp⟩
              · next rawInput _ =>
                cases ho : sb.Open rawInput (nonce ++ zeroArray (24 - nonce.length)) key with
                | none => exact Or.inl ⟨by simp, rfl, by simp⟩
                | some plain => exact Or.inr ⟨keyFile, rawInput, _, key, plain, ho, rfl⟩
          · rw [open_bad_key_length sb enc w ctx.raw nonce keyFile key hn hf hk]
            exact Or.inl ⟨by simp, rfl, by simp⟩
      · rw [open_long_nonce sb enc w ctx.raw nonce keyFile (by omega)]
        exact Or.inl ⟨by simp, rfl, by simp⟩
    · rw [open_wrong_count sb enc w ctx hlen]
      exact Or.inl ⟨by simp, rfl, by simp⟩
  refine ⟨?_, ?_, ?_⟩
  · intro herr
    by_cases hlen : ctx.args.length = 2
    · obtain ⟨nonce, keyFile, hctx⟩ := two_args ctx hlen
      rw [hctx] at herr ⊢
      by_cases hn : nonce.length ≤ 24
      · cases hf : w.readFile keyFile with
        | error err =>
          rw [seal_unreadable_key sb enc w ctx.raw nonce keyFile err hn hf]
          exact ⟨rfl, by simp⟩
        | ok key =>
          by_cases hk : key.length = 32
          · cases hi : w.readInput "Please enter text to seal" with
            | error err =>
              rw [seal_input_error sb enc w ctx.raw nonce keyFile key err hn hf hk hi]
              exact ⟨rfl, by simp⟩
            | ok input =>
              rw [seal_validated sb enc w ctx.raw nonce keyFile key input hn hf hk hi] at herr
              exact absurd rfl herr
          · rw [seal_bad_key_length sb enc w ctx.raw nonce keyFile key hn hf hk]
            exact ⟨rfl, by simp⟩
      · rw [seal_long_nonce sb enc w ctx.raw nonce keyFile (by omega)]
        exact ⟨rfl, by simp⟩
    · rw [seal_wrong_count sb enc w ctx hlen]
      exact ⟨rfl, by simp⟩
  · intro herr
    rcases hopen with h | ⟨keyFile, box, n, k, p, _, heq⟩
    · exact h.2
    · rw [heq] at herr
      exact absurd rfl herr
  · intro p hmem
    rcases hopen with h | ⟨keyFile, box, n, k, q, ho, heq⟩
    · exact absurd hmem (h.2.2 p)
    · rw [heq] at hmem ⊢
      have hpq : p = q := by simpa using hmem
      subst hpq
      refine ⟨rfl, by simp [Outcome.stdout, stdoutOf], box, n, k, by simp, ho⟩

/-- C10. Path printer: for every configured path value `s` and every context,
the action of the `path` command returns nil and writes exactly `s` followed by
one newline to standard output; with `/home/user/.step` configured it writes
exactly `/home/user/.step\n`. -/
theorem path_prints_configured_path (StepPath : GoString) (ctx : Context) :
    (pathAction StepPath ctx).err = none
    ∧ (pathAction StepPath ctx).stdout = StepPath ++ [10]
    ∧ (pathAction (ascii "/home/user/.step") ctx).stdout = ascii "/home/user/.step\n" := by
  refine ⟨rfl, ?_, ?_⟩
  · simp [pathAction, Outcome.stdout, stdoutOf, fmtPrintln]
  · simp only [pathAction, Outcome.stdout, stdoutOf, fmtPrintln, List.append_nil]
    decide

end CaCli
